import Mathlib

/-!
A shallow embedding of `src/day11.rs` (and the `Counter` from `src/library.rs`)
from the advent2022 repository: a round-based monkey/worker simulation.

Rust arithmetic conventions are modelled explicitly:
* `i128` values are `Int` together with explicit range checks against the
  `i128` bounds (`checked_add` / `checked_mul` return `Option Int`);
* Rust `/` on signed integers truncates toward zero, which is `Int.tdiv`;
* Rust `%` is the truncation remainder (sign of the dividend), `Int.tmod`.

`BTreeMap` iteration is modelled by a key-sorted association list of specs;
the `HashMap` of queues is an association list manipulated only through
key lookups, so its order is irrelevant to the simulation.
-/

/-- `i128::MIN`, that is `-2^127`. -/
def i128Min : Int := -170141183460469231731687303715884105728

/-- `i128::MAX`, that is `2^127 - 1`. -/
def i128Max : Int := 170141183460469231731687303715884105727

/-- The value fits in the `i128` range used by the Rust source. -/
def inI128 (x : Int) : Prop := i128Min ≤ x ∧ x ≤ i128Max

instance inI128.dec (x : Int) : Decidable (inI128 x) :=
  inferInstanceAs (Decidable (i128Min ≤ x ∧ x ≤ i128Max))

/-- Model of Rust `i128::checked_add`. -/
def checked_add (a b : Int) : Option Int :=
  if inI128 (a + b) then some (a + b) else none

/-- Model of Rust `i128::checked_mul`. -/
def checked_mul (a b : Int) : Option Int :=
  if inI128 (a * b) then some (a * b) else none

/-- `Operand` from day11.rs: either the current item value or a literal. -/
inductive Operand where
  | input : Operand
  | literal : Int → Operand
deriving Repr

/-- `Operand::get`. -/
def Operand.get : Operand → Int → Int
  | .input, x => x
  | .literal v, _ => v

/-- `Operator` from day11.rs. -/
inductive Operator where
  | plus : Operator
  | times : Operator
deriving Repr

/-- `Operation` from day11.rs. -/
structure Operation where
  first : Operand
  op : Operator
  second : Operand
deriving Repr

/-- `Operation::apply`: checked arithmetic on `i128`. -/
def Operation.apply (o : Operation) (input : Int) : Option Int :=
  match o.op with
  | .plus => checked_add (o.first.get input) (o.second.get input)
  | .times => checked_mul (o.first.get input) (o.second.get input)

/-- `DivisibilityTest` from day11.rs. -/
structure DivisibilityTest where
  divisor : Int
deriving Repr

/-- `DivisibilityTest::apply`: `input % divisor == 0` with Rust `%` = `tmod`. -/
def DivisibilityTest.apply (t : DivisibilityTest) (input : Int) : Bool :=
  decide (Int.tmod input t.divisor = 0)

/-- `ThrowPreference` from day11.rs; monkey ids are `i64`, modelled as `Int`. -/
structure ThrowPreference where
  if_true : Int
  if_false : Int
deriving Repr

/-- `MonkeySpec` from day11.rs. -/
structure MonkeySpec where
  operation : Operation
  test : DivisibilityTest
  preference : ThrowPreference
deriving Repr

/-- The `HashMap<MonkeyId, Vec<Item>>` of queues, as an association list. -/
abbrev Collections := List (Int × List Int)

/-- `Input` from day11.rs: specs (in ascending-key `BTreeMap` order) and queues. -/
structure Input where
  specs : List (Int × MonkeySpec)
  collections : Collections
deriving Repr

/-- Key lookup in the queue map (`HashMap::get`). -/
def lookupColl : Collections → Int → Option (List Int)
  | [], _ => none
  | (k, l) :: rest, id => if k = id then some l else lookupColl rest id

/-- Replace the queue stored at a key (`mem::take` writes back an empty queue). -/
def setColl : Collections → Int → List Int → Collections
  | [], _, _ => []
  | (k, l) :: rest, id, v =>
    if k = id then (k, v) :: rest else (k, l) :: setColl rest id v

/-- `collections.get_mut(&target)?.push(item)`: `none` when the key is absent. -/
def pushColl : Collections → Int → Int → Option Collections
  | [], _, _ => none
  | (k, l) :: rest, id, v =>
    if k = id then some ((k, l ++ [v]) :: rest)
    else
      match pushColl rest id v with
      | none => none
      | some rest2 => some ((k, l) :: rest2)

/-- `Counter::add` from library.rs: `*counts.entry(item).or_insert(0) += count`;
adding to an absent key first creates the entry with 0. -/
def counterAdd : List (Int × Nat) → Int → Nat → List (Int × Nat)
  | [], id, n => [(id, n)]
  | (k, c) :: rest, id, n =>
    if k = id then (k, c + n) :: rest else (k, c) :: counterAdd rest id n

/-- The error contexts attached by `simulate_monkeys` via `anyhow`. -/
inductive SimError where
  | factorOverflow : SimError
  | noItems : Int → SimError
  | overflow : SimError
  | noTarget : Int → SimError
  | insufficientData : SimError
deriving Repr

/-- The mutable state threaded through the simulation: the queue map plus the
inspection counter. -/
structure SimState where
  collections : Collections
  counts : List (Int × Nat)
deriving Repr

/-- The inner `for item in items` loop of one monkey turn: transform, relieve
(divide by 3 or reduce modulo the factor), test, and push to the target. -/
def processItems (spec : MonkeySpec) (div : Bool) (factor : Int) :
    List Int → Collections → Except SimError Collections
  | [], colls => .ok colls
  | item :: rest, colls =>
    match spec.operation.apply item with
    | none => .error .overflow
    | some item1 =>
      let item2 := if div then item1.tdiv 3 else item1.tmod factor
      let target :=
        if spec.test.apply item2 then spec.preference.if_true
        else spec.preference.if_false
      match pushColl colls target item2 with
      | none => .error (.noTarget target)
      | some colls2 => processItems spec div factor rest colls2

/-- One monkey turn: take the whole queue, record the inspections, process. -/
def monkeyTurn (div : Bool) (factor : Int) (st : SimState) (id : Int)
    (spec : MonkeySpec) : Except SimError SimState :=
  match lookupColl st.collections id with
  | none => .error (.noItems id)
  | some items =>
    match processItems spec div factor items (setColl st.collections id []) with
    | .error e => .error e
    | .ok colls2 => .ok ⟨colls2, counterAdd st.counts id items.length⟩

/-- One round: visit the monkeys in the order of the (ascending-key) spec list. -/
def runSpecs (div : Bool) (factor : Int) :
    List (Int × MonkeySpec) → SimState → Except SimError SimState
  | [], st => .ok st
  | (id, spec) :: rest, st =>
    match monkeyTurn div factor st id spec with
    | .error e => .error e
    | .ok st2 => runSpecs div factor rest st2

/-- `for _ in 0..rounds`: iterate the round over the fixed spec list. -/
def runRounds (specs : List (Int × MonkeySpec)) (div : Bool) (factor : Int) :
    Nat → SimState → Except SimError SimState
  | 0, st => .ok st
  | r + 1, st =>
    match runSpecs div factor specs st with
    | .error e => .error e
    | .ok st2 => runRounds specs div factor r st2

/-- The `try_fold(1i128, checked_mul)` computing the divisor product. -/
def computeFactorAux : Int → List (Int × MonkeySpec) → Option Int
  | accum, [] => some accum
  | accum, p :: rest =>
    match checked_mul accum p.2.test.divisor with
    | none => none
    | some v => computeFactorAux v rest

/-- The relief factor computed once before the first round. -/
def computeFactor (specs : List (Int × MonkeySpec)) : Option Int :=
  computeFactorAux 1 specs

/-- Modelled from the spec: `Counter::top` is called by day11.rs but its source
is not among the provided files.  Per the spec it returns the two workers with
the highest counts and requires at least two distinct workers to have inspected
at least one item each, failing otherwise; here it returns the two largest
counts (the result is only used as `count1 * count2`). -/
def counterTop (counts : List (Int × Nat)) : Option (Nat × Nat) :=
  if 2 ≤ (counts.filter (fun p => decide (0 < p.2))).length then
    match List.insertionSort (· ≥ ·) (counts.map Prod.snd) with
    | c1 :: c2 :: _ => some (c1, c2)
    | _ => none
  else none

/-- `simulate_monkeys` from day11.rs. -/
def simulate_monkeys (input : Input) (rounds : Nat) (div : Bool) :
    Except SimError Nat :=
  match computeFactor input.specs with
  | none => .error .factorOverflow
  | some factor =>
    match runRounds input.specs div factor rounds ⟨input.collections, []⟩ with
    | .error e => .error e
    | .ok st =>
      match counterTop st.counts with
      | none => .error .insufficientData
      | some (c1, c2) => .ok (c1 * c2)

/-- `part1`: 20 rounds with truncating-division relief. -/
def part1 (input : Input) : Except SimError Nat :=
  simulate_monkeys input 20 true

/-- `part2`: 10000 rounds with modulus relief. -/
def part2 (input : Input) : Except SimError Nat :=
  simulate_monkeys input 10000 false

/-- Monkey 0 of the standard example: `old * 19`, divisible by 23, targets 2/3. -/
def mspec0 : MonkeySpec := ⟨⟨.input, .times, .literal 19⟩, ⟨23⟩, ⟨2, 3⟩⟩

/-- Monkey 1 of the standard example: `old + 6`, divisible by 19, targets 2/0. -/
def mspec1 : MonkeySpec := ⟨⟨.input, .plus, .literal 6⟩, ⟨19⟩, ⟨2, 0⟩⟩

/-- Monkey 2 of the standard example: `old * old`, divisible by 13, targets 1/3. -/
def mspec2 : MonkeySpec := ⟨⟨.input, .times, .input⟩, ⟨13⟩, ⟨1, 3⟩⟩

/-- Monkey 3 of the standard example: `old + 3`, divisible by 17, targets 0/1. -/
def mspec3 : MonkeySpec := ⟨⟨.input, .plus, .literal 3⟩, ⟨17⟩, ⟨0, 1⟩⟩

/-- The standard four-monkey example instance of Advent of Code 2022 day 11. -/
def exampleInput : Input where
  specs := [(0, mspec0), (1, mspec1), (2, mspec2), (3, mspec3)]
  collections :=
    [ (0, [79, 98])
    , (1, [54, 65, 75, 74])
    , (2, [79, 60, 97])
    , (3, [74]) ]

/-!
## Fast evaluator for the example instance

`simulate_monkeys` is faithful to the Rust but too slow for the kernel to run
10000 rounds directly.  `fastRound` below is an optimised evaluator
specialised to the four example monkeys, using `Nat` item values (sound
because all values stay in `[0, 96577)` in modulus mode).  The theorems
relating it to `runSpecs`/`runRounds` are proved symbolically, so the 10000
round result of `part2` follows from kernel evaluation of `fastRounds` alone.
-/

/-- The queues and inspection counters of the four example monkeys, with item
values as `Nat`. -/
structure FastState where
  q0 : List Nat
  q1 : List Nat
  q2 : List Nat
  q3 : List Nat
  c0 : Nat
  c1 : Nat
  c2 : Nat
  c3 : Nat
deriving Repr, DecidableEq

/-- Monkey 0 of the example (`old * 19`, divisor 23, targets 2/3) processing
its batch in modulus mode, appending to the queues of monkeys 2 and 3. -/
def fastItems0 : List Nat → List Nat → List Nat → List Nat × List Nat
  | [], t, f => (t, f)
  | x :: rest, t, f =>
    let y := x * 19 % 96577
    if y % 23 = 0 then fastItems0 rest (t ++ [y]) f else fastItems0 rest t (f ++ [y])

/-- Monkey 1 of the example (`old + 6`, divisor 19, targets 2/0). -/
def fastItems1 : List Nat → List Nat → List Nat → List Nat × List Nat
  | [], t, f => (t, f)
  | x :: rest, t, f =>
    let y := (x + 6) % 96577
    if y % 19 = 0 then fastItems1 rest (t ++ [y]) f else fastItems1 rest t (f ++ [y])

/-- Monkey 2 of the example (`old * old`, divisor 13, targets 1/3). -/
def fastItems2 : List Nat → List Nat → List Nat → List Nat × List Nat
  | [], t, f => (t, f)
  | x :: rest, t, f =>
    let y := x * x % 96577
    if y % 13 = 0 then fastItems2 rest (t ++ [y]) f else fastItems2 rest t (f ++ [y])

/-- Monkey 3 of the example (`old + 3`, divisor 17, targets 0/1). -/
def fastItems3 : List Nat → List Nat → List Nat → List Nat × List Nat
  | [], t, f => (t, f)
  | x :: rest, t, f =>
    let y := (x + 3) % 96577
    if y % 17 = 0 then fastItems3 rest (t ++ [y]) f else fastItems3 rest t (f ++ [y])

/-- One full round of the four example monkeys in modulus mode. -/
def fastRound (s : FastState) : FastState :=
  let p0 := fastItems0 s.q0 s.q2 s.q3
  let p1 := fastItems1 s.q1 p0.1 []
  let p2 := fastItems2 p1.1 [] p0.2
  let p3 := fastItems3 p2.2 p1.2 p2.1
  ⟨p3.1, p3.2, [], [], s.c0 + s.q0.length, s.c1 + s.q1.length,
    s.c2 + p1.1.length, s.c3 + p2.2.length⟩

/-- Iterated fast rounds. -/
def fastRounds : Nat → FastState → FastState
  | 0, s => s
  | r + 1, s => fastRounds r (fastRound s)

/-- Item values as stored by the simulator, reinterpreted as integers. -/
def μ (l : List Nat) : List Int := l.map Nat.cast

/-- The simulator state corresponding to a `FastState`. -/
def slowOf (s : FastState) : SimState :=
  ⟨[(0, μ s.q0), (1, μ s.q1), (2, μ s.q2), (3, μ s.q3)],
    [(0, s.c0), (1, s.c1), (2, s.c2), (3, s.c3)]⟩

/-- All queued values are below the modulus of the example. -/
def Bounded (s : FastState) : Prop :=
  (∀ x ∈ s.q0, x < 96577) ∧ (∀ x ∈ s.q1, x < 96577) ∧
    (∀ x ∈ s.q2, x < 96577) ∧ (∀ x ∈ s.q3, x < 96577)

/-!
## Auxiliary definitions for the claims
-/

/-- The unchecked value of a transform, used to state when the checked one
overflows. -/
def Operation.rawApply (o : Operation) (input : Int) : Int :=
  match o.op with
  | .plus => o.first.get input + o.second.get input
  | .times => o.first.get input * o.second.get input

/-- The divisors of all specs, one entry per worker, in spec order. -/
def specDivisors (specs : List (Int × MonkeySpec)) : List Int :=
  specs.map fun p => p.2.test.divisor

/-- The product of every distinct divisor, one factor per distinct value --
the spec wording for the relief modulus. -/
def distinctDivisorProduct (specs : List (Int × MonkeySpec)) : Int :=
  ((specDivisors specs).dedup).prod

/-- Total number of items over all queues. -/
def totalItems (c : Collections) : Nat :=
  (c.map fun p => p.2.length).sum

/-- Total number of recorded inspections. -/
def totalCount (counts : List (Int × Nat)) : Nat :=
  (counts.map fun p => p.2).sum

/-- The length of the queue stored under a key (0 when the key is absent). -/
def qlen (c : Collections) (id : Int) : Nat :=
  ((lookupColl c id).getD []).length

/-- Worker 0 of the round-robin check: identity-like transform `old + 0`,
always-true divisor 1, both targets worker 1. -/
def pp0 : MonkeySpec := ⟨⟨.input, .plus, .literal 0⟩, ⟨1⟩, ⟨1, 1⟩⟩

/-- Worker 1 of the round-robin check: both targets worker 0. -/
def pp1 : MonkeySpec := ⟨⟨.input, .plus, .literal 0⟩, ⟨1⟩, ⟨0, 0⟩⟩

/-- A 2-worker instance where worker 0 always throws to worker 1 and worker 1
always throws to worker 0 (the round-robin ordering check of the spec). -/
def pingPongInput (q0 q1 : List Int) : Input where
  specs := [(0, pp0), (1, pp1)]
  collections := [(0, q0), (1, q1)]

/-- Two workers sharing the divisor 2: a repeated-divisor instance. -/
def dupDivisorInput : Input where
  specs :=
    [ (0, ⟨⟨.input, .plus, .literal 0⟩, ⟨2⟩, ⟨1, 1⟩⟩)
    , (1, ⟨⟨.input, .plus, .literal 0⟩, ⟨2⟩, ⟨0, 0⟩⟩) ]
  collections := [(0, []), (1, [])]

/-- Two workers whose divisors are `2^100` each, so the divisor product
`2^200` overflows `i128`. -/
def bigDivisorInput : Input where
  specs :=
    [ (0, ⟨⟨.input, .plus, .literal 0⟩, ⟨1267650600228229401496703205376⟩, ⟨1, 1⟩⟩)
    , (1, ⟨⟨.input, .plus, .literal 0⟩, ⟨1267650600228229401496703205376⟩, ⟨0, 0⟩⟩) ]
  collections := [(0, [5]), (1, [7])]

/-- A single worker that squares `i128::MAX`, overflowing on the first item. -/
def overflowInput : Input where
  specs := [(0, ⟨⟨.input, .times, .input⟩, ⟨3⟩, ⟨0, 0⟩⟩)]
  collections := [(0, [i128Max])]

/-- The operand contributes a nonnegative value for nonnegative inputs. -/
def operandNonneg : Operand → Prop
  | .input => True
  | .literal v => 0 ≤ v

/-- The hypotheses of the nonnegativity invariant on one spec: nonnegative
literal operands and a positive divisor. -/
def specNonneg (s : MonkeySpec) : Prop :=
  operandNonneg s.operation.first ∧ operandNonneg s.operation.second ∧
    0 < s.test.divisor

/-- Every item value in every queue is nonnegative. -/
def allNonneg (c : Collections) : Prop :=
  ∀ p ∈ c, ∀ x ∈ p.2, 0 ≤ x

instance operandNonneg.dec : (o : Operand) → Decidable (operandNonneg o)
  | .input => isTrue trivial
  | .literal v => inferInstanceAs (Decidable (0 ≤ v))

instance specNonneg.dec (s : MonkeySpec) : Decidable (specNonneg s) :=
  inferInstanceAs (Decidable (_ ∧ _ ∧ _))

instance allNonneg.dec (c : Collections) : Decidable (allNonneg c) :=
  inferInstanceAs (Decidable (∀ p ∈ c, ∀ x ∈ p.2, 0 ≤ x))

set_option maxRecDepth 100000

/-- The fast state after round 1 of the example instance. -/
def ck0 : FastState := ⟨[60, 71, 81, 80], [77, 1504, 1865, 6244, 3603, 9412], [], [], 2, 4, 3, 6⟩

/-- The fast state after round 501 of the example instance. -/
def ck1 : FastState := ⟨[65407, 94667, 54425, 83932, 58054, 21004], [20827, 78416, 86738, 28275], [], [], 2599, 2407, 104, 2594⟩

/-- The fast state after round 1001 of the example instance. -/
def ck2 : FastState := ⟨[12758, 69435, 31986, 72488], [59587, 60556, 76497, 48643, 19877, 41347], [], [], 5211, 4795, 199, 5199⟩

/-- The fast state after round 1501 of the example instance. -/
def ck3 : FastState := ⟨[90183, 71031, 56040, 39396, 60714, 54216, 25697, 76484], [22347, 14196], [], [], 7819, 7187, 295, 7799⟩

/-- The fast state after round 2001 of the example instance. -/
def ck4 : FastState := ⟨[66699, 70670, 42474, 95199, 53627], [75319, 90177, 57003, 77751, 95801], [], [], 10424, 9582, 392, 10396⟩

/-- The fast state after round 2501 of the example instance. -/
def ck5 : FastState := ⟨[62690, 30979, 6621, 54463, 86459, 25374, 43139, 2397], [65401, 82368], [], [], 13031, 11975, 490, 12994⟩

/-- The fast state after round 3001 of the example instance. -/
def ck6 : FastState := ⟨[48934, 42930, 49485, 58054, 63121], [62684, 79176, 39713, 92552, 54913], [], [], 15644, 14362, 587, 15599⟩

/-- The fast state after round 3501 of the example instance. -/
def ck7 : FastState := ⟨[49257, 24462, 92254, 72285], [56034, 61601, 48643, 58048, 36008, 25349], [], [], 18253, 16753, 686, 18201⟩

/-- The fast state after round 4001 of the example instance. -/
def ck8 : FastState := ⟨[70043, 91399, 81956, 48307, 4550, 59891], [22347, 27648, 38953, 65097], [], [], 20863, 19143, 780, 20802⟩

/-- The fast state after round 4501 of the example instance. -/
def ck9 : FastState := ⟨[16425, 18002, 10573], [32246, 57003, 30973, 28731, 75091, 57421, 48947], [], [], 23471, 21535, 877, 23403⟩

/-- The fast state after round 5001 of the example instance. -/
def ck10 : FastState := ⟨[18249, 20510, 60695, 34665, 6336, 47034, 84160, 459], [48605, 82368], [], [], 26078, 23928, 974, 26003⟩

/-- The fast state after round 5501 of the example instance. -/
def ck11 : FastState := ⟨[95123, 49485, 16140, 55147, 13100, 4335], [4677, 77694, 72279, 90766], [], [], 28691, 26315, 1068, 28609⟩

/-- The fast state after round 6001 of the example instance. -/
def ck12 : FastState := ⟨[84673, 38408, 85490, 49257, 15665, 91418], [49479, 91393, 73229, 95440], [], [], 31298, 28708, 1165, 31208⟩

/-- The fast state after round 6501 of the example instance. -/
def ck13 : FastState := ⟨[54748, 58035, 20833, 4550, 75591, 82178], [71082, 49251, 17996, 49612], [], [], 33902, 31104, 1262, 33804⟩

/-- The fast state after round 7001 of the example instance. -/
def ck14 : FastState := ⟨[83818, 54007, 60296, 7742, 19883, 52658], [28731, 6330, 4544, 41993], [], [], 36512, 33494, 1360, 36404⟩

/-- The fast state after round 7501 of the example instance. -/
def ck15 : FastState := ⟨[64647, 90867, 77757, 47034], [88334, 94091, 63596, 4905, 45527, 13094], [], [], 39123, 35883, 1457, 39008⟩

/-- The fast state after round 8001 of the example instance. -/
def ck16 : FastState := ⟨[68960, 2422, 5367, 80626, 93527], [11783, 74122, 47028, 77694, 91412], [], [], 41733, 38273, 1553, 41611⟩

/-- The fast state after round 8501 of the example instance. -/
def ck17 : FastState := ⟨[79087, 70404, 53152, 54919], [71747, 56186, 915, 95440, 38117, 77352], [], [], 44343, 40663, 1651, 44212⟩

/-- The fast state after round 9001 of the example instance. -/
def ck18 : FastState := ⟨[9148, 20225, 45552, 75591, 25355], [83812, 8553, 858, 73552, 40378], [], [], 46950, 43056, 1746, 46812⟩

/-- The fast state after round 9501 of the example instance. -/
def ck19 : FastState := ⟨[60562, 7742, 8236, 34741, 4208, 78625], [87365, 55806, 78473, 75585], [], [], 49559, 45447, 1843, 49414⟩

/-- The fast state after round 10000 of the example instance. -/
def ckFinal : FastState := ⟨[63602, 56040, 11941, 10573, 61607], [90861, 86149, 27648, 21340, 76915], [], [], 52166, 47830, 1938, 52013⟩


/-!
## Bridge lemmas: `processItems` on the example monkeys vs the fast evaluator
-/

theorem checked_add_of_inI128 {a b : Int} (h : inI128 (a + b)) :
    checked_add a b = some (a + b) := if_pos h

theorem checked_mul_of_inI128 {a b : Int} (h : inI128 (a * b)) :
    checked_mul a b = some (a * b) := if_pos h

theorem inI128_of_bounds {x : Int} (h1 : 0 ≤ x) (h2 : x ≤ 10000000000) :
    inI128 x := by
  unfold inI128 i128Min i128Max
  omega

theorem tmod_natCast (a b : Nat) : Int.tmod ↑a ↑b = ↑(a % b) :=
  (Int.ofNat_tmod a b).symm

theorem apply_mspec0 (x : Nat) (hx : x < 96577) :
    Operation.apply mspec0.operation ↑x = some ↑(x * 19) := by
  have h : inI128 ((x : Int) * 19) := inI128_of_bounds (by positivity) (by omega)
  simp [mspec0, Operation.apply, Operand.get, checked_mul_of_inI128 h]

theorem test_21_natCast (d : Nat) (y : Nat) (t : DivisibilityTest)
    (ht : t.divisor = (d : Int)) :
    DivisibilityTest.apply t ↑y = decide (y % d = 0) := by
  simp [DivisibilityTest.apply, ht, tmod_natCast, Int.natCast_dvd_natCast,
    Nat.dvd_iff_mod_eq_zero]

theorem pushColl4_0 (z0 z1 z2 z3 : List Int) (v : Int) :
    pushColl [(0, z0), (1, z1), (2, z2), (3, z3)] 0 v
      = some [(0, z0 ++ [v]), (1, z1), (2, z2), (3, z3)] := rfl

theorem pushColl4_1 (z0 z1 z2 z3 : List Int) (v : Int) :
    pushColl [(0, z0), (1, z1), (2, z2), (3, z3)] 1 v
      = some [(0, z0), (1, z1 ++ [v]), (2, z2), (3, z3)] := rfl

theorem pushColl4_2 (z0 z1 z2 z3 : List Int) (v : Int) :
    pushColl [(0, z0), (1, z1), (2, z2), (3, z3)] 2 v
      = some [(0, z0), (1, z1), (2, z2 ++ [v]), (3, z3)] := rfl

theorem pushColl4_3 (z0 z1 z2 z3 : List Int) (v : Int) :
    pushColl [(0, z0), (1, z1), (2, z2), (3, z3)] 3 v
      = some [(0, z0), (1, z1), (2, z2), (3, z3 ++ [v])] := rfl

theorem tmod_96577_natCast (a : Nat) :
    Int.tmod ↑a 96577 = ((a % 96577 : Nat) : Int) := by
  rw [show (96577 : Int) = ((96577 : Nat) : Int) by norm_num]
  exact tmod_natCast a 96577

theorem μ_nil : μ [] = [] := rfl

theorem μ_cons (x : Nat) (l : List Nat) : μ (x :: l) = ↑x :: μ l := rfl

theorem μ_append (l1 l2 : List Nat) : μ (l1 ++ l2) = μ l1 ++ μ l2 := by
  simp [μ]

theorem μ_length (l : List Nat) : (μ l).length = l.length := by
  unfold μ
  exact List.length_map _ _

theorem processItems_cons_step (spec : MonkeySpec) (dv : Bool) (factor : Int)
    (x item1 : Int) (rest : List Int) (colls : Collections)
    (happ : spec.operation.apply x = some item1) :
    processItems spec dv factor (x :: rest) colls =
      (let item2 := if dv then item1.tdiv 3 else item1.tmod factor
       let target := if spec.test.apply item2 then spec.preference.if_true
         else spec.preference.if_false
       match pushColl colls target item2 with
       | none => .error (.noTarget target)
       | some colls2 => processItems spec dv factor rest colls2) := by
  simp [processItems, happ]

theorem processItems_mspec0 (items : List Nat) :
    ∀ (t f : List Nat) (z0 z1 : List Int), (∀ x ∈ items, x < 96577) →
    processItems mspec0 false 96577 (μ items) [(0, z0), (1, z1), (2, μ t), (3, μ f)]
      = .ok [(0, z0), (1, z1), (2, μ (fastItems0 items t f).1),
             (3, μ (fastItems0 items t f).2)] := by
  induction items with
  | nil => intro t f z0 z1 _; simp [processItems, fastItems0, μ_nil]
  | cons x rest ih =>
    intro t f z0 z1 h
    have hx : x < 96577 := h x (List.mem_cons_self _ _)
    have hrest : ∀ y ∈ rest, y < 96577 := fun y hy => h y (List.mem_cons_of_mem _ hy)
    rw [μ_cons, processItems_cons_step mspec0 false 96577 _ _ _ _ (apply_mspec0 x hx)]
    simp only [Bool.false_eq_true, if_false, tmod_96577_natCast,
      test_21_natCast 23 (x * 19 % 96577) mspec0.test rfl,
      show mspec0.preference.if_true = 2 from rfl,
      show mspec0.preference.if_false = 3 from rfl]
    by_cases hy : (x * 19) % 96577 % 23 = 0
    · simp only [hy, decide_True, eq_self_iff_true, if_true, pushColl4_2]
      rw [show (μ t ++ [((x * 19 % 96577 : Nat) : Int)] : List Int)
            = μ (t ++ [x * 19 % 96577]) by rw [μ_append]; rfl]
      rw [show fastItems0 (x :: rest) t f
            = fastItems0 rest (t ++ [x * 19 % 96577]) f by simp [fastItems0, hy]]
      exact ih _ _ z0 z1 hrest
    · simp only [hy, decide_False, Bool.false_eq_true, if_false, pushColl4_3]
      rw [show (μ f ++ [((x * 19 % 96577 : Nat) : Int)] : List Int)
            = μ (f ++ [x * 19 % 96577]) by rw [μ_append]; rfl]
      rw [show fastItems0 (x :: rest) t f
            = fastItems0 rest t (f ++ [x * 19 % 96577]) by simp [fastItems0, hy]]
      exact ih _ _ z0 z1 hrest

theorem apply_mspec1 (x : Nat) (hx : x < 96577) :
    Operation.apply mspec1.operation ↑x = some ↑(x + 6) := by
  have h : inI128 ((x : Int) + 6) := inI128_of_bounds (by positivity) (by omega)
  simp [mspec1, Operation.apply, Operand.get, checked_add_of_inI128 h]

theorem apply_mspec2 (x : Nat) (hx : x < 96577) :
    Operation.apply mspec2.operation ↑x = some ↑(x * x) := by
  have h : inI128 ((x : Int) * ↑x) := by
    rw [← Nat.cast_mul]
    refine inI128_of_bounds (by positivity) ?_
    have hxx : x * x ≤ 96576 * 96576 := Nat.mul_le_mul (by omega) (by omega)
    exact_mod_cast (by omega : x * x ≤ 10000000000)
  simp [mspec2, Operation.apply, Operand.get, checked_mul_of_inI128 h]

theorem apply_mspec3 (x : Nat) (hx : x < 96577) :
    Operation.apply mspec3.operation ↑x = some ↑(x + 3) := by
  have h : inI128 ((x : Int) + 3) := inI128_of_bounds (by positivity) (by omega)
  simp [mspec3, Operation.apply, Operand.get, checked_add_of_inI128 h]

theorem processItems_mspec1 (items : List Nat) :
    ∀ (t f : List Nat) (z1 z3 : List Int), (∀ x ∈ items, x < 96577) →
    processItems mspec1 false 96577 (μ items) [(0, μ f), (1, z1), (2, μ t), (3, z3)]
      = .ok [(0, μ (fastItems1 items t f).2), (1, z1), (2, μ (fastItems1 items t f).1),
             (3, z3)] := by
  induction items with
  | nil => intro t f z1 z3 _; simp [processItems, fastItems1, μ_nil]
  | cons x rest ih =>
    intro t f z1 z3 h
    have hx : x < 96577 := h x (List.mem_cons_self _ _)
    have hrest : ∀ y ∈ rest, y < 96577 := fun y hy => h y (List.mem_cons_of_mem _ hy)
    rw [μ_cons, processItems_cons_step mspec1 false 96577 _ _ _ _ (apply_mspec1 x hx)]
    simp only [Bool.false_eq_true, if_false, tmod_96577_natCast,
      test_21_natCast 19 ((x + 6) % 96577) mspec1.test rfl,
      show mspec1.preference.if_true = 2 from rfl,
      show mspec1.preference.if_false = 0 from rfl]
    by_cases hy : (x + 6) % 96577 % 19 = 0
    · simp only [hy, decide_True, eq_self_iff_true, if_true, pushColl4_2]
      rw [show (μ t ++ [(((x + 6) % 96577 : Nat) : Int)] : List Int)
            = μ (t ++ [(x + 6) % 96577]) by rw [μ_append]; rfl]
      rw [show fastItems1 (x :: rest) t f
            = fastItems1 rest (t ++ [(x + 6) % 96577]) f by simp [fastItems1, hy]]
      exact ih _ _ z1 z3 hrest
    · simp only [hy, decide_False, Bool.false_eq_true, if_false, pushColl4_0]
      rw [show (μ f ++ [(((x + 6) % 96577 : Nat) : Int)] : List Int)
            = μ (f ++ [(x + 6) % 96577]) by rw [μ_append]; rfl]
      rw [show fastItems1 (x :: rest) t f
            = fastItems1 rest t (f ++ [(x + 6) % 96577]) by simp [fastItems1, hy]]
      exact ih _ _ z1 z3 hrest

theorem processItems_mspec2 (items : List Nat) :
    ∀ (t f : List Nat) (z0 z2 : List Int), (∀ x ∈ items, x < 96577) →
    processItems mspec2 false 96577 (μ items) [(0, z0), (1, μ t), (2, z2), (3, μ f)]
      = .ok [(0, z0), (1, μ (fastItems2 items t f).1), (2, z2),
             (3, μ (fastItems2 items t f).2)] := by
  induction items with
  | nil => intro t f z0 z2 _; simp [processItems, fastItems2, μ_nil]
  | cons x rest ih =>
    intro t f z0 z2 h
    have hx : x < 96577 := h x (List.mem_cons_self _ _)
    have hrest : ∀ y ∈ rest, y < 96577 := fun y hy => h y (List.mem_cons_of_mem _ hy)
    rw [μ_cons, processItems_cons_step mspec2 false 96577 _ _ _ _ (apply_mspec2 x hx)]
    simp only [Bool.false_eq_true, if_false, tmod_96577_natCast,
      test_21_natCast 13 (x * x % 96577) mspec2.test rfl,
      show mspec2.preference.if_true = 1 from rfl,
      show mspec2.preference.if_false = 3 from rfl]
    by_cases hy : x * x % 96577 % 13 = 0
    · simp only [hy, decide_True, eq_self_iff_true, if_true, pushColl4_1]
      rw [show (μ t ++ [((x * x % 96577 : Nat) : Int)] : List Int)
            = μ (t ++ [x * x % 96577]) by rw [μ_append]; rfl]
      rw [show fastItems2 (x :: rest) t f
            = fastItems2 rest (t ++ [x * x % 96577]) f by simp [fastItems2, hy]]
      exact ih _ _ z0 z2 hrest
    · simp only [hy, decide_False, Bool.false_eq_true, if_false, pushColl4_3]
      rw [show (μ f ++ [((x * x % 96577 : Nat) : Int)] : List Int)
            = μ (f ++ [x * x % 96577]) by rw [μ_append]; rfl]
      rw [show fastItems2 (x :: rest) t f
            = fastItems2 rest t (f ++ [x * x % 96577]) by simp [fastItems2, hy]]
      exact ih _ _ z0 z2 hrest

theorem processItems_mspec3 (items : List Nat) :
    ∀ (t f : List Nat) (z2 z3 : List Int), (∀ x ∈ items, x < 96577) →
    processItems mspec3 false 96577 (μ items) [(0, μ t), (1, μ f), (2, z2), (3, z3)]
      = .ok [(0, μ (fastItems3 items t f).1), (1, μ (fastItems3 items t f).2),
             (2, z2), (3, z3)] := by
  induction items with
  | nil => intro t f z2 z3 _; simp [processItems, fastItems3, μ_nil]
  | cons x rest ih =>
    intro t f z2 z3 h
    have hx : x < 96577 := h x (List.mem_cons_self _ _)
    have hrest : ∀ y ∈ rest, y < 96577 := fun y hy => h y (List.mem_cons_of_mem _ hy)
    rw [μ_cons, processItems_cons_step mspec3 false 96577 _ _ _ _ (apply_mspec3 x hx)]
    simp only [Bool.false_eq_true, if_false, tmod_96577_natCast,
      test_21_natCast 17 ((x + 3) % 96577) mspec3.test rfl,
      show mspec3.preference.if_true = 0 from rfl,
      show mspec3.preference.if_false = 1 from rfl]
    by_cases hy : (x + 3) % 96577 % 17 = 0
    · simp only [hy, decide_True, eq_self_iff_true, if_true, pushColl4_0]
      rw [show (μ t ++ [(((x + 3) % 96577 : Nat) : Int)] : List Int)
            = μ (t ++ [(x + 3) % 96577]) by rw [μ_append]; rfl]
      rw [show fastItems3 (x :: rest) t f
            = fastItems3 rest (t ++ [(x + 3) % 96577]) f by simp [fastItems3, hy]]
      exact ih _ _ z2 z3 hrest
    · simp only [hy, decide_False, Bool.false_eq_true, if_false, pushColl4_1]
      rw [show (μ f ++ [(((x + 3) % 96577 : Nat) : Int)] : List Int)
            = μ (f ++ [(x + 3) % 96577]) by rw [μ_append]; rfl]
      rw [show fastItems3 (x :: rest) t f
            = fastItems3 rest t (f ++ [(x + 3) % 96577]) by simp [fastItems3, hy]]
      exact ih _ _ z2 z3 hrest

theorem mem_append_mod_bound {t : List Nat} (ht : ∀ x ∈ t, x < 96577) (y : Nat) :
    ∀ x ∈ t ++ [y % 96577], x < 96577 := by
  intro x hx
  rcases List.mem_append.mp hx with h | h
  · exact ht x h
  · simp only [List.mem_singleton] at h
    subst h
    exact Nat.mod_lt _ (by norm_num)

theorem fastItems0_bound (items : List Nat) : ∀ t f : List Nat,
    (∀ x ∈ t, x < 96577) → (∀ x ∈ f, x < 96577) →
    (∀ x ∈ (fastItems0 items t f).1, x < 96577) ∧
      (∀ x ∈ (fastItems0 items t f).2, x < 96577) := by
  induction items with
  | nil => intro t f ht hf; simpa [fastItems0] using ⟨ht, hf⟩
  | cons x rest ih =>
    intro t f ht hf
    by_cases hy : x * 19 % 96577 % 23 = 0
    · rw [show fastItems0 (x :: rest) t f
            = fastItems0 rest (t ++ [x * 19 % 96577]) f by simp [fastItems0, hy]]
      exact ih _ _ (mem_append_mod_bound ht _) hf
    · rw [show fastItems0 (x :: rest) t f
            = fastItems0 rest t (f ++ [x * 19 % 96577]) by simp [fastItems0, hy]]
      exact ih _ _ ht (mem_append_mod_bound hf _)

theorem fastItems1_bound (items : List Nat) : ∀ t f : List Nat,
    (∀ x ∈ t, x < 96577) → (∀ x ∈ f, x < 96577) →
    (∀ x ∈ (fastItems1 items t f).1, x < 96577) ∧
      (∀ x ∈ (fastItems1 items t f).2, x < 96577) := by
  induction items with
  | nil => intro t f ht hf; simpa [fastItems1] using ⟨ht, hf⟩
  | cons x rest ih =>
    intro t f ht hf
    by_cases hy : (x + 6) % 96577 % 19 = 0
    · rw [show fastItems1 (x :: rest) t f
            = fastItems1 rest (t ++ [(x + 6) % 96577]) f by simp [fastItems1, hy]]
      exact ih _ _ (mem_append_mod_bound ht _) hf
    · rw [show fastItems1 (x :: rest) t f
            = fastItems1 rest t (f ++ [(x + 6) % 96577]) by simp [fastItems1, hy]]
      exact ih _ _ ht (mem_append_mod_bound hf _)

theorem fastItems2_bound (items : List Nat) : ∀ t f : List Nat,
    (∀ x ∈ t, x < 96577) → (∀ x ∈ f, x < 96577) →
    (∀ x ∈ (fastItems2 items t f).1, x < 96577) ∧
      (∀ x ∈ (fastItems2 items t f).2, x < 96577) := by
  induction items with
  | nil => intro t f ht hf; simpa [fastItems2] using ⟨ht, hf⟩
  | cons x rest ih =>
    intro t f ht hf
    by_cases hy : x * x % 96577 % 13 = 0
    · rw [show fastItems2 (x :: rest) t f
            = fastItems2 rest (t ++ [x * x % 96577]) f by simp [fastItems2, hy]]
      exact ih _ _ (mem_append_mod_bound ht _) hf
    · rw [show fastItems2 (x :: rest) t f
            = fastItems2 rest t (f ++ [x * x % 96577]) by simp [fastItems2, hy]]
      exact ih _ _ ht (mem_append_mod_bound hf _)

theorem fastItems3_bound (items : List Nat) : ∀ t f : List Nat,
    (∀ x ∈ t, x < 96577) → (∀ x ∈ f, x < 96577) →
    (∀ x ∈ (fastItems3 items t f).1, x < 96577) ∧
      (∀ x ∈ (fastItems3 items t f).2, x < 96577) := by
  induction items with
  | nil => intro t f ht hf; simpa [fastItems3] using ⟨ht, hf⟩
  | cons x rest ih =>
    intro t f ht hf
    by_cases hy : (x + 3) % 96577 % 17 = 0
    · rw [show fastItems3 (x :: rest) t f
            = fastItems3 rest (t ++ [(x + 3) % 96577]) f by simp [fastItems3, hy]]
      exact ih _ _ (mem_append_mod_bound ht _) hf
    · rw [show fastItems3 (x :: rest) t f
            = fastItems3 rest t (f ++ [(x + 3) % 96577]) by simp [fastItems3, hy]]
      exact ih _ _ ht (mem_append_mod_bound hf _)

theorem round_bridge (s : FastState) (hb : Bounded s) :
    runSpecs false 96577 exampleInput.specs (slowOf s) = .ok (slowOf (fastRound s)) := by
  obtain ⟨q0, q1, q2, q3, c0, c1, c2, c3⟩ := s
  obtain ⟨h0, h1, h2, h3⟩ := hb
  have hp0 := fastItems0_bound q0 q2 q3 h2 h3
  have hp1 := fastItems1_bound q1 (fastItems0 q0 q2 q3).1 [] hp0.1 (by simp)
  have hp2 := fastItems2_bound (fastItems1 q1 (fastItems0 q0 q2 q3).1 []).1 []
    (fastItems0 q0 q2 q3).2 (by simp) hp0.2
  have e0 := processItems_mspec0 q0 q2 q3 [] (μ q1) h0
  have e1 := processItems_mspec1 q1 (fastItems0 q0 q2 q3).1 [] []
    (μ (fastItems0 q0 q2 q3).2) h1
  rw [μ_nil] at e1
  have e2 := processItems_mspec2 (fastItems1 q1 (fastItems0 q0 q2 q3).1 []).1 []
    (fastItems0 q0 q2 q3).2 (μ (fastItems1 q1 (fastItems0 q0 q2 q3).1 []).2) []
    hp1.1
  rw [μ_nil] at e2
  have e3 := processItems_mspec3 (fastItems2 (fastItems1 q1 (fastItems0 q0 q2 q3).1 []).1
      [] (fastItems0 q0 q2 q3).2).2
    (fastItems1 q1 (fastItems0 q0 q2 q3).1 []).2
    (fastItems2 (fastItems1 q1 (fastItems0 q0 q2 q3).1 []).1 [] (fastItems0 q0 q2 q3).2).1
    [] [] hp2.2
  simp only [exampleInput, slowOf, fastRound]
  simp [runSpecs, monkeyTurn, lookupColl, setColl, counterAdd, e0, e1, e2, e3,
    μ_length, μ_nil]

theorem bounded_fastRound (s : FastState) (hb : Bounded s) : Bounded (fastRound s) := by
  obtain ⟨q0, q1, q2, q3, c0, c1, c2, c3⟩ := s
  obtain ⟨h0, h1, h2, h3⟩ := hb
  have hp0 := fastItems0_bound q0 q2 q3 h2 h3
  have hp1 := fastItems1_bound q1 (fastItems0 q0 q2 q3).1 [] hp0.1 (by simp)
  have hp2 := fastItems2_bound (fastItems1 q1 (fastItems0 q0 q2 q3).1 []).1 []
    (fastItems0 q0 q2 q3).2 (by simp) hp0.2
  have hp3 := fastItems3_bound
    (fastItems2 (fastItems1 q1 (fastItems0 q0 q2 q3).1 []).1 [] (fastItems0 q0 q2 q3).2).2
    (fastItems1 q1 (fastItems0 q0 q2 q3).1 []).2
    (fastItems2 (fastItems1 q1 (fastItems0 q0 q2 q3).1 []).1 [] (fastItems0 q0 q2 q3).2).1
    hp1.2 hp2.1
  refine ⟨?_, ?_, by simp [fastRound, Bounded], by simp [fastRound, Bounded]⟩
  · simpa [fastRound, Bounded] using hp3.1
  · simpa [fastRound, Bounded] using hp3.2

theorem rounds_bridge (r : Nat) : ∀ (s : FastState), Bounded s →
    runRounds exampleInput.specs false 96577 r (slowOf s)
      = .ok (slowOf (fastRounds r s)) := by
  induction r with
  | zero => intro s _; simp [runRounds, fastRounds]
  | succ n ih =>
    intro s hb
    have step : runRounds exampleInput.specs false 96577 (n + 1) (slowOf s)
        = runRounds exampleInput.specs false 96577 n (slowOf (fastRound s)) := by
      simp [runRounds, round_bridge s hb]
    rw [step, show fastRounds (n + 1) s = fastRounds n (fastRound s) from rfl]
    exact ih (fastRound s) (bounded_fastRound s hb)

theorem fastRounds_add (a : Nat) : ∀ (b : Nat) (s : FastState),
    fastRounds (b + a) s = fastRounds b (fastRounds a s) := by
  induction a with
  | zero => intro b s; rfl
  | succ n ih =>
    intro b s
    rw [show b + (n + 1) = (b + n) + 1 from rfl,
      show fastRounds ((b + n) + 1) s = fastRounds (b + n) (fastRound s) from rfl,
      ih b (fastRound s),
      show fastRounds (n + 1) s = fastRounds n (fastRound s) from rfl]

/-- Kernel-checked chunk of 500 fast rounds. -/
theorem fastChunk0 : fastRounds 500 ck0 = ck1 := by decide!
/-- Kernel-checked chunk of 500 fast rounds. -/
theorem fastChunk1 : fastRounds 500 ck1 = ck2 := by decide!
/-- Kernel-checked chunk of 500 fast rounds. -/
theorem fastChunk2 : fastRounds 500 ck2 = ck3 := by decide!
/-- Kernel-checked chunk of 500 fast rounds. -/
theorem fastChunk3 : fastRounds 500 ck3 = ck4 := by decide!
/-- Kernel-checked chunk of 500 fast rounds. -/
theorem fastChunk4 : fastRounds 500 ck4 = ck5 := by decide!
/-- Kernel-checked chunk of 500 fast rounds. -/
theorem fastChunk5 : fastRounds 500 ck5 = ck6 := by decide!
/-- Kernel-checked chunk of 500 fast rounds. -/
theorem fastChunk6 : fastRounds 500 ck6 = ck7 := by decide!
/-- Kernel-checked chunk of 500 fast rounds. -/
theorem fastChunk7 : fastRounds 500 ck7 = ck8 := by decide!
/-- Kernel-checked chunk of 500 fast rounds. -/
theorem fastChunk8 : fastRounds 500 ck8 = ck9 := by decide!
/-- Kernel-checked chunk of 500 fast rounds. -/
theorem fastChunk9 : fastRounds 500 ck9 = ck10 := by decide!
/-- Kernel-checked chunk of 500 fast rounds. -/
theorem fastChunk10 : fastRounds 500 ck10 = ck11 := by decide!
/-- Kernel-checked chunk of 500 fast rounds. -/
theorem fastChunk11 : fastRounds 500 ck11 = ck12 := by decide!
/-- Kernel-checked chunk of 500 fast rounds. -/
theorem fastChunk12 : fastRounds 500 ck12 = ck13 := by decide!
/-- Kernel-checked chunk of 500 fast rounds. -/
theorem fastChunk13 : fastRounds 500 ck13 = ck14 := by decide!
/-- Kernel-checked chunk of 500 fast rounds. -/
theorem fastChunk14 : fastRounds 500 ck14 = ck15 := by decide!
/-- Kernel-checked chunk of 500 fast rounds. -/
theorem fastChunk15 : fastRounds 500 ck15 = ck16 := by decide!
/-- Kernel-checked chunk of 500 fast rounds. -/
theorem fastChunk16 : fastRounds 500 ck16 = ck17 := by decide!
/-- Kernel-checked chunk of 500 fast rounds. -/
theorem fastChunk17 : fastRounds 500 ck17 = ck18 := by decide!
/-- Kernel-checked chunk of 500 fast rounds. -/
theorem fastChunk18 : fastRounds 500 ck18 = ck19 := by decide!
/-- Kernel-checked final chunk of 499 fast rounds. -/
theorem fastChunk19 : fastRounds 499 ck19 = ckFinal := by decide!

theorem round1_concrete : runSpecs false 96577 exampleInput.specs
    ⟨exampleInput.collections, []⟩ = .ok (slowOf ck0) := by rfl

theorem fastRounds_9999 : fastRounds 9999 ck0 = ckFinal := by
  rw [show fastRounds 9999 ck0 = fastRounds 9499 (fastRounds 500 ck0) from
    fastRounds_add 500 9499 ck0, fastChunk0]
  rw [show fastRounds 9499 ck1 = fastRounds 8999 (fastRounds 500 ck1) from
    fastRounds_add 500 8999 ck1, fastChunk1]
  rw [show fastRounds 8999 ck2 = fastRounds 8499 (fastRounds 500 ck2) from
    fastRounds_add 500 8499 ck2, fastChunk2]
  rw [show fastRounds 8499 ck3 = fastRounds 7999 (fastRounds 500 ck3) from
    fastRounds_add 500 7999 ck3, fastChunk3]
  rw [show fastRounds 7999 ck4 = fastRounds 7499 (fastRounds 500 ck4) from
    fastRounds_add 500 7499 ck4, fastChunk4]
  rw [show fastRounds 7499 ck5 = fastRounds 6999 (fastRounds 500 ck5) from
    fastRounds_add 500 6999 ck5, fastChunk5]
  rw [show fastRounds 6999 ck6 = fastRounds 6499 (fastRounds 500 ck6) from
    fastRounds_add 500 6499 ck6, fastChunk6]
  rw [show fastRounds 6499 ck7 = fastRounds 5999 (fastRounds 500 ck7) from
    fastRounds_add 500 5999 ck7, fastChunk7]
  rw [show fastRounds 5999 ck8 = fastRounds 5499 (fastRounds 500 ck8) from
    fastRounds_add 500 5499 ck8, fastChunk8]
  rw [show fastRounds 5499 ck9 = fastRounds 4999 (fastRounds 500 ck9) from
    fastRounds_add 500 4999 ck9, fastChunk9]
  rw [show fastRounds 4999 ck10 = fastRounds 4499 (fastRounds 500 ck10) from
    fastRounds_add 500 4499 ck10, fastChunk10]
  rw [show fastRounds 4499 ck11 = fastRounds 3999 (fastRounds 500 ck11) from
    fastRounds_add 500 3999 ck11, fastChunk11]
  rw [show fastRounds 3999 ck12 = fastRounds 3499 (fastRounds 500 ck12) from
    fastRounds_add 500 3499 ck12, fastChunk12]
  rw [show fastRounds 3499 ck13 = fastRounds 2999 (fastRounds 500 ck13) from
    fastRounds_add 500 2999 ck13, fastChunk13]
  rw [show fastRounds 2999 ck14 = fastRounds 2499 (fastRounds 500 ck14) from
    fastRounds_add 500 2499 ck14, fastChunk14]
  rw [show fastRounds 2499 ck15 = fastRounds 1999 (fastRounds 500 ck15) from
    fastRounds_add 500 1999 ck15, fastChunk15]
  rw [show fastRounds 1999 ck16 = fastRounds 1499 (fastRounds 500 ck16) from
    fastRounds_add 500 1499 ck16, fastChunk16]
  rw [show fastRounds 1499 ck17 = fastRounds 999 (fastRounds 500 ck17) from
    fastRounds_add 500 999 ck17, fastChunk17]
  rw [show fastRounds 999 ck18 = fastRounds 499 (fastRounds 500 ck18) from
    fastRounds_add 500 499 ck18, fastChunk18]
  exact fastChunk19

instance Bounded.dec (s : FastState) : Decidable (Bounded s) :=
  inferInstanceAs (Decidable ((∀ x ∈ s.q0, x < 96577) ∧ (∀ x ∈ s.q1, x < 96577) ∧
    (∀ x ∈ s.q2, x < 96577) ∧ (∀ x ∈ s.q3, x < 96577)))

theorem runRounds_succ (specs : List (Int × MonkeySpec)) (dv : Bool) (factor : Int)
    (r : Nat) (st : SimState) :
    runRounds specs dv factor (r + 1) st =
      match runSpecs dv factor specs st with
      | .error e => .error e
      | .ok st2 => runRounds specs dv factor r st2 := rfl

theorem runRounds_step {dv : Bool} {factor : Int} {specs : List (Int × MonkeySpec)}
    {st st2 : SimState} (r : Nat) (h : runSpecs dv factor specs st = .ok st2) :
    runRounds specs dv factor (r + 1) st = runRounds specs dv factor r st2 := by
  rw [runRounds_succ, h]

theorem runRounds_one {dv : Bool} {factor : Int} {specs : List (Int × MonkeySpec)}
    {st st2 : SimState} (h : runSpecs dv factor specs st = .ok st2) :
    runRounds specs dv factor 1 st = .ok st2 := by
  rw [show (1 : Nat) = 0 + 1 from rfl, runRounds_step 0 h]
  rfl

theorem simulate_unfold (input : Input) (rounds : Nat) (dv : Bool) (factor : Int)
    (hf : computeFactor input.specs = some factor) :
    simulate_monkeys input rounds dv =
      (match runRounds input.specs dv factor rounds ⟨input.collections, []⟩ with
       | .error e => .error e
       | .ok st =>
         match counterTop st.counts with
         | none => .error .insufficientData
         | some (c1, c2) => .ok (c1 * c2)) := by
  simp [simulate_monkeys, hf]

theorem runRounds_10000 : runRounds exampleInput.specs false 96577 10000
    ⟨exampleInput.collections, []⟩ = .ok (slowOf ckFinal) := by
  rw [show (10000 : Nat) = 9999 + 1 from rfl, runRounds_succ, round1_concrete]
  show runRounds exampleInput.specs false 96577 9999 (slowOf ck0) = _
  rw [rounds_bridge 9999 ck0 (by decide), fastRounds_9999]

/-- C2: on the standard four-worker example instance, `part1` (20 rounds,
divide-mode relief) returns 10605 and `part2` (10000 rounds, modulus-mode
relief) returns 2713310158, each being the product of the two highest
inspection counts. -/
theorem c2_example_results :
    part1 exampleInput = .ok 10605 ∧ part2 exampleInput = .ok 2713310158 := by
  constructor
  · rfl
  · rw [show part2 exampleInput = simulate_monkeys exampleInput 10000 false from rfl,
      simulate_unfold exampleInput 10000 false 96577 (by rfl), runRounds_10000]
    rfl

/-!
## C1: reducing modulo the divisor product never changes a divisibility test
-/

theorem tmod_eq_emod_nonneg {a : Int} (b : Int) (ha : 0 ≤ a) :
    Int.tmod a b = a % b := by
  rcases le_or_lt 0 b with hb | hb
  · exact Int.tmod_eq_emod ha hb
  · calc Int.tmod a b = Int.tmod a (-(-b)) := by rw [neg_neg]
      _ = Int.tmod a (-b) := Int.tmod_neg a (-b)
      _ = a % (-b) := Int.tmod_eq_emod ha (by omega)
      _ = a % b := Int.emod_neg a b

theorem neg_tmod_left (a b : Int) : Int.tmod (-a) b = -Int.tmod a b := by
  rw [Int.tmod_def, Int.tmod_def, Int.neg_tdiv]
  ring

theorem tmod_tmod_of_dvd_nonneg {x : Int} (hx : 0 ≤ x) {d M : Int} (h : d ∣ M) :
    Int.tmod (Int.tmod x M) d = Int.tmod x d := by
  rw [tmod_eq_emod_nonneg M hx]
  by_cases hM : M = 0
  · subst hM
    rw [Int.emod_zero]
  · rw [tmod_eq_emod_nonneg d (Int.emod_nonneg x hM), tmod_eq_emod_nonneg d hx,
      Int.emod_emod_of_dvd x h]

theorem tmod_tmod_of_dvd (x : Int) {d M : Int} (h : d ∣ M) :
    Int.tmod (Int.tmod x M) d = Int.tmod x d := by
  rcases le_or_lt 0 x with hx | hx
  · exact tmod_tmod_of_dvd_nonneg hx h
  · have hneg : 0 ≤ -x := by omega
    calc Int.tmod (Int.tmod x M) d
        = Int.tmod (Int.tmod (-(-x)) M) d := by rw [neg_neg]
      _ = Int.tmod (-Int.tmod (-x) M) d := by rw [neg_tmod_left (-x) M]
      _ = -Int.tmod (Int.tmod (-x) M) d := neg_tmod_left _ d
      _ = -Int.tmod (-x) d := by rw [tmod_tmod_of_dvd_nonneg hneg h]
      _ = Int.tmod (-(-x)) d := (neg_tmod_left (-x) d).symm
      _ = Int.tmod x d := by rw [neg_neg]

theorem checked_mul_some {a b v : Int} (h : checked_mul a b = some v) : v = a * b := by
  unfold checked_mul at h
  split at h
  · exact (Option.some.inj h).symm
  · cases h

theorem checked_add_some {a b v : Int} (h : checked_add a b = some v) : v = a + b := by
  unfold checked_add at h
  split at h
  · exact (Option.some.inj h).symm
  · cases h

theorem computeFactorAux_eq (specs : List (Int × MonkeySpec)) : ∀ a M : Int,
    computeFactorAux a specs = some M → M = a * (specDivisors specs).prod := by
  induction specs with
  | nil =>
    intro a M h
    simp only [computeFactorAux, Option.some.injEq] at h
    simp [specDivisors, ← h]
  | cons p rest ih =>
    intro a M h
    unfold computeFactorAux at h
    cases hc : checked_mul a p.2.test.divisor with
    | none => rw [hc] at h; cases h
    | some v =>
      rw [hc] at h
      rw [ih v M h, checked_mul_some hc]
      simp [specDivisors, List.prod_cons]
      ring

theorem computeFactor_eq {specs : List (Int × MonkeySpec)} {M : Int}
    (h : computeFactor specs = some M) : M = (specDivisors specs).prod := by
  have := computeFactorAux_eq specs 1 M h
  simpa using this

/-- C1: for any simulation whose divisor product `M` is computed before the
first round, for every integer item value `x` (in particular every reachable
one) and every worker spec, `(x tmod M) tmod d = x tmod d`, so reducing
modulo `M` never changes a later divisibility test outcome. -/
theorem c1_modulus_preserves_tests (input : Input) (M : Int)
    (hM : computeFactor input.specs = some M) (x : Int) :
    ∀ p ∈ input.specs,
      Int.tmod (Int.tmod x M) p.2.test.divisor = Int.tmod x p.2.test.divisor ∧
      DivisibilityTest.apply p.2.test (Int.tmod x M)
        = DivisibilityTest.apply p.2.test x := by
  intro p hp
  have hd : p.2.test.divisor ∣ M := by
    rw [computeFactor_eq hM]
    exact List.dvd_prod (List.mem_map_of_mem _ hp)
  refine ⟨tmod_tmod_of_dvd x hd, ?_⟩
  simp [DivisibilityTest.apply, tmod_tmod_of_dvd x hd]

/-- Witness for C1 at the example input, modulus 96577, item value -5. -/
theorem c1_witness :
    Int.tmod (Int.tmod (-5) 96577) mspec0.test.divisor
        = Int.tmod (-5) mspec0.test.divisor ∧
      DivisibilityTest.apply mspec0.test (Int.tmod (-5) 96577)
        = DivisibilityTest.apply mspec0.test (-5) :=
  c1_modulus_preserves_tests exampleInput 96577 (by rfl) (-5) (0, mspec0)
    (by simp [exampleInput])

/-!
## C4: the modulus is the product over all workers, repeats included
-/

/-- C4 counterexample: with two workers sharing divisor 2 the code computes
`M = 4`, while the product of distinct divisors is 2. -/
theorem c4_counterexample :
    computeFactor dupDivisorInput.specs = some 4 ∧
      distinctDivisorProduct dupDivisorInput.specs = 2 ∧ (4 : Int) ≠ 2 := by
  refine ⟨by rfl, by rfl, by decide⟩

/-- C4 amended: the modulus equals the product of the divisors of all
workers, one factor per worker (repeated divisors contribute repeatedly),
computed before the first round. -/
theorem c4_factor_is_full_product (specs : List (Int × MonkeySpec)) (M : Int)
    (h : computeFactor specs = some M) : M = (specDivisors specs).prod :=
  computeFactor_eq h

/-- Witness for C4 amended at the example input. -/
theorem c4_witness : (96577 : Int) = (specDivisors exampleInput.specs).prod :=
  c4_factor_is_full_product exampleInput.specs 96577 (by rfl)

/-!
## C5: checked transforms and overflow aborts
-/

theorem checked_add_none_iff (a b : Int) :
    checked_add a b = none ↔ ¬ inI128 (a + b) := by
  unfold checked_add
  split <;> simp_all

theorem checked_mul_none_iff (a b : Int) :
    checked_mul a b = none ↔ ¬ inI128 (a * b) := by
  unfold checked_mul
  split <;> simp_all

/-- C5: the transform is overflow-checked (it returns `none` exactly when the
unchecked result leaves the `i128` range), and a divide-mode run whose first
transform overflows aborts with the overflow error and no result. -/
theorem c5_overflow_checked :
    (∀ (o : Operation) (x : Int), o.apply x = none ↔ ¬ inI128 (o.rawApply x)) ∧
      (∀ r : Nat, simulate_monkeys overflowInput (r + 1) true = .error .overflow) := by
  constructor
  · intro o x
    cases ho : o.op with
    | plus =>
      simp [Operation.apply, Operation.rawApply, ho, checked_add_none_iff]
    | times =>
      simp [Operation.apply, Operation.rawApply, ho, checked_mul_none_iff]
  · intro r
    rw [show simulate_monkeys overflowInput (r + 1) true =
        (match runRounds overflowInput.specs true 3 (r + 1)
            ⟨overflowInput.collections, []⟩ with
         | .error e => .error e
         | .ok st =>
           match counterTop st.counts with
           | none => .error .insufficientData
           | some (c1, c2) => .ok (c1 * c2)) from
      simulate_unfold overflowInput (r + 1) true 3 (by rfl)]
    rw [runRounds_succ, show runSpecs true 3 overflowInput.specs
        ⟨overflowInput.collections, []⟩ = .error .overflow from rfl]

/-- Witness for C5 at a concrete overflowing operation and one round. -/
theorem c5_witness :
    (Operation.apply ⟨.input, .times, .input⟩ i128Max = none ↔
        ¬ inI128 (Operation.rawApply ⟨.input, .times, .input⟩ i128Max)) ∧
      simulate_monkeys overflowInput 1 true = .error .overflow :=
  ⟨c5_overflow_checked.1 ⟨.input, .times, .input⟩ i128Max,
    c5_overflow_checked.2 0⟩

/-!
## C8: the divisor product is computed (checked) in both modes, before rounds
-/

/-- C8: whenever the divisor product overflows `i128`, the simulation fails
with the factor-overflow error in both relief modes, for any round count
(including zero rounds: the failure precedes the first round); in particular
`part1` fails fast on such an input. -/
theorem c8_factor_overflow_fails_fast :
    (∀ (input : Input) (rounds : Nat) (dv : Bool),
        computeFactor input.specs = none →
        simulate_monkeys input rounds dv = .error .factorOverflow) ∧
      part1 bigDivisorInput = .error .factorOverflow ∧
      (∀ (rounds : Nat) (dv : Bool),
        simulate_monkeys bigDivisorInput rounds dv = .error .factorOverflow) := by
  have hgen : ∀ (input : Input) (rounds : Nat) (dv : Bool),
      computeFactor input.specs = none →
      simulate_monkeys input rounds dv = .error .factorOverflow := by
    intro input rounds dv h
    simp [simulate_monkeys, h]
  exact ⟨hgen, hgen bigDivisorInput 20 true (by rfl),
    fun rounds dv => hgen bigDivisorInput rounds dv (by rfl)⟩

/-- Witness for C8 at the concrete big-divisor input. -/
theorem c8_witness : simulate_monkeys bigDivisorInput 5 false = .error .factorOverflow :=
  c8_factor_overflow_fails_fast.1 bigDivisorInput 5 false (by rfl)

/-!
## C6: the top-two query (modelled from the spec)
-/

theorem counterTop_none_iff (counts : List (Int × Nat)) :
    counterTop counts = none ↔
      (counts.filter fun p => decide (0 < p.2)).length < 2 := by
  unfold counterTop
  split
  case isTrue h =>
    have hlen : 2 ≤ (List.insertionSort (· ≥ ·) (counts.map Prod.snd)).length := by
      rw [List.length_insertionSort, List.length_map]
      exact le_trans h (List.length_filter_le _ _)
    rcases hl : List.insertionSort (· ≥ ·) (counts.map Prod.snd) with _ | ⟨a, _ | ⟨b, t⟩⟩
    · rw [hl] at hlen; simp at hlen
    · rw [hl] at hlen; simp at hlen
    · simp
      omega
  case isFalse h =>
    simp
    omega

theorem counterTop_some_spec (counts : List (Int × Nat)) (c1 c2 : Nat)
    (h : counterTop counts = some (c1, c2)) :
    ∃ rest, (counts.map Prod.snd).Perm (c1 :: c2 :: rest) ∧
      List.Sorted (· ≥ ·) (c1 :: c2 :: rest) := by
  unfold counterTop at h
  split at h
  case isTrue hf =>
    rcases hl : List.insertionSort (· ≥ ·) (counts.map Prod.snd) with _ | ⟨a, _ | ⟨b, t⟩⟩ <;>
      rw [hl] at h
    · cases h
    · cases h
    · have hab : a = c1 ∧ b = c2 := by
        simpa using h
      obtain ⟨ha, hb⟩ := hab
      subst ha
      subst hb
      refine ⟨t, ?_, ?_⟩
      · have hperm := List.perm_insertionSort ((· ≥ ·) : Nat → Nat → Prop)
          (counts.map Prod.snd)
        rw [hl] at hperm
        exact hperm.symm
      · have hsorted := List.sorted_insertionSort ((· ≥ ·) : Nat → Nat → Prop)
          (counts.map Prod.snd)
        rw [hl] at hsorted
        exact hsorted
  case isFalse hf => cases h

/-- C6: the top-two query (modelled from the spec) fails exactly when fewer
than two workers have a nonzero inspection count, and on success returns the
two largest counts: the result heads a sorted-descending permutation of all
counts. -/
theorem c6_top_two :
    (∀ counts : List (Int × Nat), counterTop counts = none ↔
      (counts.filter fun p => decide (0 < p.2)).length < 2) ∧
    (∀ (counts : List (Int × Nat)) (c1 c2 : Nat),
      counterTop counts = some (c1, c2) →
      ∃ rest, (counts.map Prod.snd).Perm (c1 :: c2 :: rest) ∧
        List.Sorted (· ≥ ·) (c1 :: c2 :: rest)) :=
  ⟨counterTop_none_iff, counterTop_some_spec⟩

/-- Witness for C6 at a concrete counter. -/
theorem c6_witness :
    ∃ rest, (([((0 : Int), 5), ((1 : Int), 3), ((2 : Int), 0)].map Prod.snd).Perm
        (5 :: 3 :: rest)) ∧ List.Sorted (· ≥ ·) (5 :: 3 :: rest) :=
  c6_top_two.2 [((0 : Int), 5), ((1 : Int), 3), ((2 : Int), 0)] 5 3 (by rfl)

/-!
## C9: every worker gets a counter entry on its turn, even with no items
-/

theorem counterAdd_mem_self (c : List (Int × Nat)) (id : Int) (n : Nat) :
    id ∈ (counterAdd c id n).map Prod.fst := by
  induction c with
  | nil => simp [counterAdd]
  | cons p rest ih =>
    obtain ⟨k, cnt⟩ := p
    simp only [counterAdd]
    split
    case isTrue h => simp [h]
    case isFalse h => simp [ih]

theorem counterAdd_mem_mono {c : List (Int × Nat)} {x : Int} (id : Int) (n : Nat)
    (hx : x ∈ c.map Prod.fst) : x ∈ (counterAdd c id n).map Prod.fst := by
  induction c with
  | nil => simp at hx
  | cons p rest ih =>
    obtain ⟨k, cnt⟩ := p
    simp only [List.map_cons, List.mem_cons] at hx
    simp only [counterAdd]
    split
    case isTrue h =>
      rcases hx with hx | hx
      · simp [hx]
      · simp [hx]
    case isFalse h =>
      rcases hx with hx | hx
      · simp [hx]
      · simp [ih hx]

theorem monkeyTurn_counts {dv : Bool} {factor : Int} {st : SimState} {id : Int}
    {spec : MonkeySpec} {st2 : SimState}
    (h : monkeyTurn dv factor st id spec = .ok st2) :
    ∃ q, lookupColl st.collections id = some q ∧
      st2.counts = counterAdd st.counts id q.length := by
  unfold monkeyTurn at h
  cases hq : lookupColl st.collections id with
  | none => simp [hq] at h
  | some q =>
    simp only [hq] at h
    cases hp : processItems spec dv factor q (setColl st.collections id []) with
    | error e => simp [hp] at h
    | ok c2 =>
      simp only [hp, Except.ok.injEq] at h
      subst h
      exact ⟨q, rfl, rfl⟩

theorem runSpecs_counts_mem {dv : Bool} {factor : Int}
    (specs : List (Int × MonkeySpec)) : ∀ (st st2 : SimState),
    runSpecs dv factor specs st = .ok st2 →
    (∀ x ∈ st.counts.map Prod.fst, x ∈ st2.counts.map Prod.fst) ∧
    (∀ p ∈ specs, p.1 ∈ st2.counts.map Prod.fst) := by
  induction specs with
  | nil =>
    intro st st2 h
    simp only [runSpecs, Except.ok.injEq] at h
    subst h
    exact ⟨fun x hx => hx, by simp⟩
  | cons p rest ih =>
    intro st st2 h
    obtain ⟨id, spec⟩ := p
    unfold runSpecs at h
    cases hm : monkeyTurn dv factor st id spec with
    | error e => simp [hm] at h
    | ok st1 =>
      simp only [hm] at h
      obtain ⟨hmono, hmem⟩ := ih st1 st2 h
      obtain ⟨q, hq, hcounts⟩ := monkeyTurn_counts hm
      constructor
      · intro x hx
        exact hmono x (by rw [hcounts]; exact counterAdd_mem_mono id q.length hx)
      · intro pp hpp
        rcases List.mem_cons.mp hpp with rfl | hpp2
        · exact hmono id (by rw [hcounts]; exact counterAdd_mem_self st.counts id q.length)
        · exact hmem pp hpp2

theorem runRounds_counts_mono {dv : Bool} {factor : Int}
    {specs : List (Int × MonkeySpec)} (r : Nat) : ∀ (st st2 : SimState),
    runRounds specs dv factor r st = .ok st2 →
    ∀ x ∈ st.counts.map Prod.fst, x ∈ st2.counts.map Prod.fst := by
  induction r with
  | zero =>
    intro st st2 h
    simp only [runRounds, Except.ok.injEq] at h
    subst h
    exact fun x hx => hx
  | succ n ih =>
    intro st st2 h
    rw [runRounds_succ] at h
    cases hs : runSpecs dv factor specs st with
    | error e => simp [hs] at h
    | ok st1 =>
      simp only [hs] at h
      intro x hx
      exact ih st1 st2 h x ((runSpecs_counts_mem specs st st1 hs).1 x hx)

/-- C9: `Counter::add` creates an entry even for a zero count, and after at
least one completed round every worker in the spec list has an entry in the
inspection counter, including workers that never inspected an item. -/
theorem c9_every_worker_counted :
    (∀ (c : List (Int × Nat)) (id : Int), id ∈ (counterAdd c id 0).map Prod.fst) ∧
    (∀ (specs : List (Int × MonkeySpec)) (dv : Bool) (factor : Int) (r : Nat)
      (st st2 : SimState), runRounds specs dv factor (r + 1) st = .ok st2 →
      ∀ p ∈ specs, p.1 ∈ st2.counts.map Prod.fst) := by
  refine ⟨fun c id => counterAdd_mem_self c id 0, ?_⟩
  intro specs dv factor r st st2 h p hp
  rw [runRounds_succ] at h
  cases hs : runSpecs dv factor specs st with
  | error e => simp [hs] at h
  | ok st1 =>
    simp only [hs] at h
    exact runRounds_counts_mono r st1 st2 h p.1
      ((runSpecs_counts_mem specs st st1 hs).2 p hp)

/-- Witness for C9: a 2-worker instance with empty queues; after one round
both workers have (zero-count) entries. -/
theorem c9_witness :
    (0 : Int) ∈ ((counterAdd [] 0 0).map Prod.fst) ∧
      (0 : Int) ∈ ((⟨[(0, []), (1, [])], [(0, 0), (1, 0)]⟩ : SimState).counts.map
        Prod.fst) := by
  refine ⟨c9_every_worker_counted.1 [] 0, ?_⟩
  exact c9_every_worker_counted.2 (pingPongInput [] []).specs false 1 0
    ⟨(pingPongInput [] []).collections, []⟩ _ (by rfl) (0, pp0)
    (by simp [pingPongInput])

/-!
## C3: round-robin ordering on the 2-worker ping-pong instance
-/

theorem pushColl2_0 (z0 z1 : List Int) (v : Int) :
    pushColl [(0, z0), (1, z1)] 0 v = some [(0, z0 ++ [v]), (1, z1)] := rfl

theorem pushColl2_1 (z0 z1 : List Int) (v : Int) :
    pushColl [(0, z0), (1, z1)] 1 v = some [(0, z0), (1, z1 ++ [v])] := rfl

theorem apply_pp (x : Int) (hx : inI128 x) :
    Operation.apply ⟨.input, .plus, .literal 0⟩ x = some x := by
  simp [Operation.apply, Operand.get, checked_add, hx]

theorem processItems_pp0 (items : List Int) : ∀ (t z0 : List Int),
    (∀ x ∈ items, inI128 x) →
    processItems pp0 false 1 items [(0, z0), (1, t)]
      = .ok [(0, z0), (1, t ++ List.replicate items.length 0)] := by
  induction items with
  | nil => intro t z0 _; simp [processItems]
  | cons x rest ih =>
    intro t z0 h
    rw [processItems_cons_step pp0 false 1 x x rest _
      (apply_pp x (h x (List.mem_cons_self _ _)))]
    simp only [Bool.false_eq_true, if_false, Int.tmod_one,
      show pp0.test.apply 0 = true from rfl,
      if_true, show pp0.preference.if_true = 1 from rfl, pushColl2_1]
    rw [ih (t ++ [0]) z0 (fun y hy => h y (List.mem_cons_of_mem _ hy))]
    simp [List.replicate_succ, List.append_assoc]

theorem processItems_pp1 (items : List Int) : ∀ (t z1 : List Int),
    (∀ x ∈ items, inI128 x) →
    processItems pp1 false 1 items [(0, t), (1, z1)]
      = .ok [(0, t ++ List.replicate items.length 0), (1, z1)] := by
  induction items with
  | nil => intro t z1 _; simp [processItems]
  | cons x rest ih =>
    intro t z1 h
    rw [processItems_cons_step pp1 false 1 x x rest _
      (apply_pp x (h x (List.mem_cons_self _ _)))]
    simp only [Bool.false_eq_true, if_false, Int.tmod_one,
      show pp1.test.apply 0 = true from rfl,
      if_true, show pp1.preference.if_true = 0 from rfl, pushColl2_0]
    rw [ih (t ++ [0]) z1 (fun y hy => h y (List.mem_cons_of_mem _ hy))]
    simp [List.replicate_succ, List.append_assoc]

theorem pingRound (q0 q1 : List Int) (counts : List (Int × Nat))
    (h0 : ∀ x ∈ q0, inI128 x) (h1 : ∀ x ∈ q1, inI128 x) :
    runSpecs false 1 [(0, pp0), (1, pp1)] ⟨[(0, q0), (1, q1)], counts⟩
      = .ok ⟨[(0, List.replicate (q1.length + q0.length) 0), (1, [])],
          counterAdd (counterAdd counts 0 q0.length) 1 (q1.length + q0.length)⟩ := by
  have hq1r : ∀ x ∈ q1 ++ List.replicate q0.length 0, inI128 x := by
    intro x hx
    rcases List.mem_append.mp hx with hx | hx
    · exact h1 x hx
    · rw [List.eq_of_mem_replicate hx]
      exact ⟨by norm_num [i128Min], by norm_num [i128Max]⟩
  have e0 := processItems_pp0 q0 q1 [] h0
  have e1 := processItems_pp1 (q1 ++ List.replicate q0.length 0) [] [] hq1r
  simp [runSpecs, monkeyTurn, lookupColl, setColl, e0, e1]

/-- C3: round-robin ordering.  In the 2-worker ping-pong instance, after one
round the items originally at worker 0 have been inspected by worker 0 and
(in the same round) by worker 1, which also inspected its own items and threw
everything back to worker 0, where it waits uninspected; after the second
round worker 0 has additionally inspected exactly that waiting batch.  Thus an
item thrown to a higher id is processed later in the same round, and an item
thrown to a lower id no earlier than the next round. -/
theorem c3_round_robin_ordering (q0 q1 : List Int)
    (h0 : ∀ x ∈ q0, inI128 x) (h1 : ∀ x ∈ q1, inI128 x) :
    runRounds (pingPongInput q0 q1).specs false 1 1
        ⟨(pingPongInput q0 q1).collections, []⟩
      = .ok ⟨[(0, List.replicate (q1.length + q0.length) 0), (1, [])],
          [(0, q0.length), (1, q1.length + q0.length)]⟩ ∧
    runRounds (pingPongInput q0 q1).specs false 1 2
        ⟨(pingPongInput q0 q1).collections, []⟩
      = .ok ⟨[(0, List.replicate (q1.length + q0.length) 0), (1, [])],
          [(0, q0.length + (q1.length + q0.length)),
            (1, (q1.length + q0.length) + (q1.length + q0.length))]⟩ := by
  have hrep : ∀ x ∈ List.replicate (q1.length + q0.length) (0 : Int), inI128 x := by
    intro x hx
    rw [List.eq_of_mem_replicate hx]
    exact ⟨by norm_num [i128Min], by norm_num [i128Max]⟩
  have r1 := pingRound q0 q1 [] h0 h1
  have r2 := pingRound (List.replicate (q1.length + q0.length) 0) []
    [(0, q0.length), (1, q1.length + q0.length)] hrep (by simp)
  rw [show counterAdd (counterAdd [] 0 q0.length) 1 (q1.length + q0.length)
        = [(0, q0.length), (1, q1.length + q0.length)] by simp [counterAdd]] at r1
  rw [show (pingPongInput q0 q1).specs = [(0, pp0), (1, pp1)] from rfl,
    show (pingPongInput q0 q1).collections = [(0, q0), (1, q1)] from rfl]
  constructor
  · exact runRounds_one r1
  · rw [show (2 : Nat) = 1 + 1 from rfl, runRounds_step 1 r1, runRounds_one r2]
    simp [counterAdd, List.length_replicate]

/-- Witness for C3 at concrete queues. -/
theorem c3_witness :
    runRounds (pingPongInput [5] [7, 8]).specs false 1 1
        ⟨(pingPongInput [5] [7, 8]).collections, []⟩
      = .ok ⟨[(0, List.replicate 3 0), (1, [])], [(0, 1), (1, 3)]⟩ :=
  (c3_round_robin_ordering [5] [7, 8] (by decide) (by decide)).1

/-!
## C10: nonnegativity is preserved throughout the simulation
-/

theorem operand_get_nonneg {o : Operand} (h : operandNonneg o) {x : Int}
    (hx : 0 ≤ x) : 0 ≤ o.get x := by
  cases o with
  | input => exact hx
  | literal v => exact h

theorem apply_nonneg {o : Operation} (h1 : operandNonneg o.first)
    (h2 : operandNonneg o.second) {x y : Int} (hx : 0 ≤ x)
    (h : o.apply x = some y) : 0 ≤ y := by
  have ha := operand_get_nonneg h1 hx
  have hb := operand_get_nonneg h2 hx
  unfold Operation.apply at h
  cases ho : o.op with
  | plus =>
    rw [ho] at h
    rw [checked_add_some h]
    exact add_nonneg ha hb
  | times =>
    rw [ho] at h
    rw [checked_mul_some h]
    exact mul_nonneg ha hb

theorem relief_nonneg (dv : Bool) (factor : Int) {y : Int} (hy : 0 ≤ y) :
    0 ≤ (if dv then y.tdiv 3 else y.tmod factor) := by
  cases dv with
  | true => simpa using Int.tdiv_nonneg hy (by norm_num)
  | false => simpa using Int.tmod_nonneg factor hy

theorem pushColl_allNonneg {c c2 : Collections} {id v : Int}
    (hc : allNonneg c) (hv : 0 ≤ v) (h : pushColl c id v = some c2) :
    allNonneg c2 := by
  induction c generalizing c2 with
  | nil => cases h
  | cons p rest ih =>
    obtain ⟨k, l⟩ := p
    unfold pushColl at h
    split at h
    · obtain rfl := Option.some.inj h
      intro q hq x hx
      rcases List.mem_cons.mp hq with rfl | hq2
      · rcases List.mem_append.mp hx with hx | hx
        · exact hc (k, l) (List.mem_cons_self _ _) x hx
        · simp only [List.mem_singleton] at hx
          subst hx
          exact hv
      · exact hc q (List.mem_cons_of_mem _ hq2) x hx
    · cases hrec : pushColl rest id v with
      | none => rw [hrec] at h; cases h
      | some rest2 =>
        rw [hrec] at h
        obtain rfl := Option.some.inj h
        have hrest : allNonneg rest2 :=
          ih (fun q hq x hx => hc q (List.mem_cons_of_mem _ hq) x hx) hrec
        intro q hq x hx
        rcases List.mem_cons.mp hq with rfl | hq2
        · exact hc (k, l) (List.mem_cons_self _ _) x hx
        · exact hrest q hq2 x hx

theorem setColl_empty_allNonneg {c : Collections} (id : Int)
    (hc : allNonneg c) : allNonneg (setColl c id []) := by
  induction c with
  | nil => intro q hq; cases hq
  | cons p rest ih =>
    obtain ⟨k, l⟩ := p
    unfold setColl
    split
    · intro q hq x hx
      rcases List.mem_cons.mp hq with rfl | hq2
      · cases hx
      · exact hc q (List.mem_cons_of_mem _ hq2) x hx
    · intro q hq x hx
      rcases List.mem_cons.mp hq with rfl | hq2
      · exact hc (k, l) (List.mem_cons_self _ _) x hx
      · exact ih (fun r hr y hy => hc r (List.mem_cons_of_mem _ hr) y hy) q hq2 x hx

theorem lookupColl_allNonneg {c : Collections} {id : Int} {q : List Int}
    (hc : allNonneg c) (h : lookupColl c id = some q) : ∀ x ∈ q, 0 ≤ x := by
  induction c with
  | nil => cases h
  | cons p rest ih =>
    obtain ⟨k, l⟩ := p
    unfold lookupColl at h
    split at h
    · obtain rfl := Option.some.inj h
      exact fun x hx => hc (k, l) (List.mem_cons_self _ _) x hx
    · exact ih (fun r hr y hy => hc r (List.mem_cons_of_mem _ hr) y hy) h

theorem processItems_allNonneg {spec : MonkeySpec} {dv : Bool} {factor : Int}
    (hs : specNonneg spec) (items : List Int) : ∀ {c c2 : Collections},
    (∀ x ∈ items, 0 ≤ x) → allNonneg c →
    processItems spec dv factor items c = .ok c2 → allNonneg c2 := by
  induction items with
  | nil =>
    intro c c2 _ hc h
    simp only [processItems, Except.ok.injEq] at h
    subst h
    exact hc
  | cons x rest ih =>
    intro c c2 hitems hc h
    unfold processItems at h
    cases ha : spec.operation.apply x with
    | none => simp [ha] at h
    | some y =>
      simp only [ha] at h
      have hy : 0 ≤ y := apply_nonneg hs.1 hs.2.1 (hitems x (List.mem_cons_self _ _)) ha
      have hitem2 : 0 ≤ (if dv then y.tdiv 3 else y.tmod factor) :=
        relief_nonneg dv factor hy
      cases hp : pushColl c (if spec.test.apply (if dv then y.tdiv 3 else y.tmod factor)
          then spec.preference.if_true else spec.preference.if_false)
          (if dv then y.tdiv 3 else y.tmod factor) with
      | none => simp [hp] at h
      | some c3 =>
        simp only [hp] at h
        exact ih (fun z hz => hitems z (List.mem_cons_of_mem _ hz))
          (pushColl_allNonneg hc hitem2 hp) h

theorem monkeyTurn_allNonneg {dv : Bool} {factor : Int} {st st2 : SimState}
    {id : Int} {spec : MonkeySpec} (hs : specNonneg spec)
    (hc : allNonneg st.collections) (h : monkeyTurn dv factor st id spec = .ok st2) :
    allNonneg st2.collections := by
  unfold monkeyTurn at h
  cases hq : lookupColl st.collections id with
  | none => simp [hq] at h
  | some q =>
    simp only [hq] at h
    cases hp : processItems spec dv factor q (setColl st.collections id []) with
    | error e => simp [hp] at h
    | ok c2 =>
      simp only [hp, Except.ok.injEq] at h
      subst h
      exact processItems_allNonneg hs q (lookupColl_allNonneg hc hq)
        (setColl_empty_allNonneg id hc) hp

theorem runSpecs_allNonneg {dv : Bool} {factor : Int}
    (specs : List (Int × MonkeySpec)) : ∀ {st st2 : SimState},
    (∀ p ∈ specs, specNonneg p.2) → allNonneg st.collections →
    runSpecs dv factor specs st = .ok st2 → allNonneg st2.collections := by
  induction specs with
  | nil =>
    intro st st2 _ hc h
    simp only [runSpecs, Except.ok.injEq] at h
    subst h
    exact hc
  | cons p rest ih =>
    intro st st2 hspecs hc h
    obtain ⟨id, spec⟩ := p
    unfold runSpecs at h
    cases hm : monkeyTurn dv factor st id spec with
    | error e => simp [hm] at h
    | ok st1 =>
      simp only [hm] at h
      exact ih (fun q hq => hspecs q (List.mem_cons_of_mem _ hq))
        (monkeyTurn_allNonneg (hspecs (id, spec) (List.mem_cons_self _ _)) hc hm) h

/-- C10: when every literal operand is nonnegative, every divisor positive,
and every queued item nonnegative, all item values reachable during the run
(in either relief mode) remain nonnegative: checked addition and
multiplication, truncating division by 3, and `tmod` reduction all preserve
nonnegativity. -/
theorem c10_nonneg_invariant (specs : List (Int × MonkeySpec)) (dv : Bool)
    (factor : Int) (r : Nat) : ∀ {st st2 : SimState},
    (∀ p ∈ specs, specNonneg p.2) → allNonneg st.collections →
    runRounds specs dv factor r st = .ok st2 → allNonneg st2.collections := by
  induction r with
  | zero =>
    intro st st2 _ hc h
    simp only [runRounds, Except.ok.injEq] at h
    subst h
    exact hc
  | succ n ih =>
    intro st st2 hspecs hc h
    rw [runRounds_succ] at h
    cases hs : runSpecs dv factor specs st with
    | error e => simp [hs] at h
    | ok st1 =>
      simp only [hs] at h
      exact ih hspecs (runSpecs_allNonneg specs hspecs hc hs) h

/-- Witness for C10 on the ping-pong instance after one round. -/
theorem c10_witness : allNonneg [(0, [0, 0, 0]), (1, [])] :=
  c10_nonneg_invariant (pingPongInput [5] [7, 8]).specs false 1 1
    (by decide) (by decide)
    (by rfl : runRounds (pingPongInput [5] [7, 8]).specs false 1 1
      ⟨(pingPongInput [5] [7, 8]).collections, []⟩
        = .ok ⟨[(0, [0, 0, 0]), (1, [])], [(0, 1), (1, 3)]⟩)

/-!
## C7: conservation of items and the inspection-count bound
-/

theorem totalItems_cons (k : Int) (l : List Int) (rest : Collections) :
    totalItems ((k, l) :: rest) = l.length + totalItems rest := by
  simp [totalItems]

theorem totalCount_cons (k : Int) (n : Nat) (rest : List (Int × Nat)) :
    totalCount ((k, n) :: rest) = n + totalCount rest := by
  simp [totalCount]

theorem pushColl_totalItems {c c2 : Collections} {id v : Int}
    (h : pushColl c id v = some c2) : totalItems c2 = totalItems c + 1 := by
  induction c generalizing c2 with
  | nil => cases h
  | cons p rest ih =>
    obtain ⟨k, l⟩ := p
    unfold pushColl at h
    split at h
    · obtain rfl := Option.some.inj h
      simp [totalItems_cons]
      omega
    · cases hrec : pushColl rest id v with
      | none => rw [hrec] at h; cases h
      | some rest2 =>
        rw [hrec] at h
        obtain rfl := Option.some.inj h
        rw [totalItems_cons, totalItems_cons, ih hrec]
        omega

theorem processItems_totalItems {spec : MonkeySpec} {dv : Bool} {factor : Int}
    (items : List Int) : ∀ {c c2 : Collections},
    processItems spec dv factor items c = .ok c2 →
    totalItems c2 = totalItems c + items.length := by
  induction items with
  | nil =>
    intro c c2 h
    simp only [processItems, Except.ok.injEq] at h
    subst h
    simp
  | cons x rest ih =>
    intro c c2 h
    unfold processItems at h
    cases ha : spec.operation.apply x with
    | none => simp [ha] at h
    | some y =>
      simp only [ha] at h
      cases hp : pushColl c (if spec.test.apply (if dv then y.tdiv 3 else y.tmod factor)
          then spec.preference.if_true else spec.preference.if_false)
          (if dv then y.tdiv 3 else y.tmod factor) with
      | none => simp [hp] at h
      | some c3 =>
        simp only [hp] at h
        rw [ih h, pushColl_totalItems hp]
        simp
        omega

theorem lookup_set_totalItems {c : Collections} {id : Int} {q : List Int}
    (h : lookupColl c id = some q) :
    totalItems c = totalItems (setColl c id []) + q.length := by
  induction c with
  | nil => cases h
  | cons p rest ih =>
    obtain ⟨k, l⟩ := p
    by_cases hk : k = id
    · subst hk
      simp only [lookupColl, if_pos rfl] at h
      obtain rfl := Option.some.inj h
      simp [setColl, totalItems_cons]
      omega
    · simp only [lookupColl, if_neg hk] at h
      simp only [setColl, if_neg hk]
      rw [totalItems_cons, totalItems_cons, ih h]
      omega

theorem counterAdd_totalCount (counts : List (Int × Nat)) (id : Int) (n : Nat) :
    totalCount (counterAdd counts id n) = totalCount counts + n := by
  induction counts with
  | nil => simp [counterAdd, totalCount]
  | cons p rest ih =>
    obtain ⟨k, c⟩ := p
    unfold counterAdd
    split
    · rw [totalCount_cons, totalCount_cons]
      omega
    · rw [totalCount_cons, totalCount_cons, ih]
      omega

theorem monkeyTurn_conserve {dv : Bool} {factor : Int} {st st2 : SimState}
    {id : Int} {spec : MonkeySpec} (h : monkeyTurn dv factor st id spec = .ok st2) :
    totalItems st2.collections = totalItems st.collections ∧
      totalCount st2.counts = totalCount st.counts + qlen st.collections id := by
  unfold monkeyTurn at h
  cases hq : lookupColl st.collections id with
  | none => simp [hq] at h
  | some q =>
    simp only [hq] at h
    cases hp : processItems spec dv factor q (setColl st.collections id []) with
    | error e => simp [hp] at h
    | ok c2 =>
      simp only [hp, Except.ok.injEq] at h
      subst h
      constructor
      · rw [show (⟨c2, counterAdd st.counts id q.length⟩ : SimState).collections = c2
            from rfl]
        rw [processItems_totalItems q hp, lookup_set_totalItems hq]
      · rw [show (⟨c2, counterAdd st.counts id q.length⟩ : SimState).counts
            = counterAdd st.counts id q.length from rfl]
        rw [counterAdd_totalCount]
        simp [qlen, hq]

theorem runSpecs_conserve {dv : Bool} {factor : Int}
    (specs : List (Int × MonkeySpec)) : ∀ {st st2 : SimState},
    runSpecs dv factor specs st = .ok st2 →
    totalItems st2.collections = totalItems st.collections := by
  induction specs with
  | nil =>
    intro st st2 h
    simp only [runSpecs, Except.ok.injEq] at h
    subst h
    rfl
  | cons p rest ih =>
    intro st st2 h
    obtain ⟨id, spec⟩ := p
    unfold runSpecs at h
    cases hm : monkeyTurn dv factor st id spec with
    | error e => simp [hm] at h
    | ok st1 =>
      simp only [hm] at h
      rw [ih h, (monkeyTurn_conserve hm).1]

theorem runRounds_conserve {dv : Bool} {factor : Int}
    {specs : List (Int × MonkeySpec)} (r : Nat) : ∀ {st st2 : SimState},
    runRounds specs dv factor r st = .ok st2 →
    totalItems st2.collections = totalItems st.collections := by
  induction r with
  | zero =>
    intro st st2 h
    simp only [runRounds, Except.ok.injEq] at h
    subst h
    rfl
  | succ n ih =>
    intro st st2 h
    rw [runRounds_succ] at h
    cases hs : runSpecs dv factor specs st with
    | error e => simp [hs] at h
    | ok st1 =>
      simp only [hs] at h
      rw [ih h, runSpecs_conserve specs hs]

theorem pushColl_extends {c c2 : Collections} {id v : Int}
    (h : pushColl c id v = some c2) :
    ∀ w q, lookupColl c w = some q → ∃ e, lookupColl c2 w = some (q ++ e) := by
  induction c generalizing c2 with
  | nil => cases h
  | cons p rest ih =>
    obtain ⟨k, l⟩ := p
    unfold pushColl at h
    split at h
    · obtain rfl := Option.some.inj h
      intro w q hw
      by_cases hkw : k = w
      · simp only [lookupColl, if_pos hkw] at hw ⊢
        obtain rfl := Option.some.inj hw
        exact ⟨[v], rfl⟩
      · simp only [lookupColl, if_neg hkw] at hw ⊢
        exact ⟨[], by simp [hw]⟩
    · cases hrec : pushColl rest id v with
      | none => rw [hrec] at h; cases h
      | some rest2 =>
        rw [hrec] at h
        obtain rfl := Option.some.inj h
        intro w q hw
        by_cases hkw : k = w
        · simp only [lookupColl, if_pos hkw] at hw ⊢
          obtain rfl := Option.some.inj hw
          exact ⟨[], by simp⟩
        · simp only [lookupColl, if_neg hkw] at hw ⊢
          exact ih hrec w q hw

theorem processItems_extends {spec : MonkeySpec} {dv : Bool} {factor : Int}
    (items : List Int) : ∀ {c c2 : Collections},
    processItems spec dv factor items c = .ok c2 →
    ∀ w q, lookupColl c w = some q → ∃ e, lookupColl c2 w = some (q ++ e) := by
  induction items with
  | nil =>
    intro c c2 h w q hw
    simp only [processItems, Except.ok.injEq] at h
    subst h
    exact ⟨[], by simp [hw]⟩
  | cons x rest ih =>
    intro c c2 h w q hw
    unfold processItems at h
    cases ha : spec.operation.apply x with
    | none => simp [ha] at h
    | some y =>
      simp only [ha] at h
      cases hp : pushColl c (if spec.test.apply (if dv then y.tdiv 3 else y.tmod factor)
          then spec.preference.if_true else spec.preference.if_false)
          (if dv then y.tdiv 3 else y.tmod factor) with
      | none => simp [hp] at h
      | some c3 =>
        simp only [hp] at h
        obtain ⟨e1, he1⟩ := pushColl_extends hp w q hw
        obtain ⟨e2, he2⟩ := ih h w (q ++ e1) he1
        exact ⟨e1 ++ e2, by rw [he2, List.append_assoc]⟩

theorem setColl_lookup_ne (c : Collections) (id : Int) (v : List Int) (w : Int)
    (hw : w ≠ id) : lookupColl (setColl c id v) w = lookupColl c w := by
  induction c with
  | nil => rfl
  | cons p rest ih =>
    obtain ⟨k, l⟩ := p
    unfold setColl
    split
    case isTrue hk =>
      subst hk
      simp only [lookupColl, if_neg (Ne.symm hw)]
    case isFalse hk =>
      by_cases hkw : k = w
      · simp only [lookupColl, if_pos hkw]
      · simp only [lookupColl, if_neg hkw]
        exact ih

theorem monkeyTurn_extends {dv : Bool} {factor : Int} {st st2 : SimState}
    {id : Int} {spec : MonkeySpec} (h : monkeyTurn dv factor st id spec = .ok st2) :
    ∀ w, w ≠ id → ∀ q, lookupColl st.collections w = some q →
    ∃ e, lookupColl st2.collections w = some (q ++ e) := by
  unfold monkeyTurn at h
  cases hq : lookupColl st.collections id with
  | none => simp [hq] at h
  | some batch =>
    simp only [hq] at h
    cases hp : processItems spec dv factor batch (setColl st.collections id []) with
    | error e => simp [hp] at h
    | ok c2 =>
      simp only [hp, Except.ok.injEq] at h
      subst h
      intro w hw q hwq
      have hset : lookupColl (setColl st.collections id []) w = some q := by
        rw [setColl_lookup_ne st.collections id [] w hw]
        exact hwq
      exact processItems_extends batch hp w q hset

theorem runSpecs_count_ge {dv : Bool} {factor : Int}
    (specs : List (Int × MonkeySpec)) : ∀ {st st2 : SimState},
    (specs.map Prod.fst).Nodup →
    runSpecs dv factor specs st = .ok st2 →
    totalCount st.counts + ((specs.map fun p => qlen st.collections p.1).sum)
      ≤ totalCount st2.counts := by
  induction specs with
  | nil =>
    intro st st2 _ h
    simp only [runSpecs, Except.ok.injEq] at h
    subst h
    simp
  | cons p rest ih =>
    intro st st2 hnd h
    obtain ⟨id, spec⟩ := p
    unfold runSpecs at h
    cases hm : monkeyTurn dv factor st id spec with
    | error e => simp [hm] at h
    | ok st1 =>
      simp only [hm] at h
      simp only [List.map_cons, List.nodup_cons] at hnd
      have hih := ih hnd.2 h
      have hcons := monkeyTurn_conserve hm
      have hptwise : ∀ p2 ∈ rest, qlen st.collections p2.1 ≤ qlen st1.collections p2.1 := by
        intro p2 hp2
        have hne : p2.1 ≠ id := by
          intro hcontra
          exact hnd.1 (hcontra ▸ List.mem_map_of_mem Prod.fst hp2)
        cases hq2 : lookupColl st.collections p2.1 with
        | none => simp [qlen, hq2]
        | some q2 =>
          obtain ⟨e, he⟩ := monkeyTurn_extends hm p2.1 hne q2 hq2
          simp [qlen, hq2, he]
      have hsum : ((rest.map fun p2 => qlen st.collections p2.1).sum)
          ≤ ((rest.map fun p2 => qlen st1.collections p2.1).sum) :=
        List.sum_le_sum hptwise
      simp only [List.map_cons, List.sum_cons]
      omega

theorem pushColl_keys {c c2 : Collections} {id v : Int}
    (h : pushColl c id v = some c2) : c2.map Prod.fst = c.map Prod.fst := by
  induction c generalizing c2 with
  | nil => cases h
  | cons p rest ih =>
    obtain ⟨k, l⟩ := p
    unfold pushColl at h
    split at h
    · obtain rfl := Option.some.inj h
      simp
    · cases hrec : pushColl rest id v with
      | none => rw [hrec] at h; cases h
      | some rest2 =>
        rw [hrec] at h
        obtain rfl := Option.some.inj h
        simp [ih hrec]

theorem setColl_keys (c : Collections) (id : Int) (v : List Int) :
    (setColl c id v).map Prod.fst = c.map Prod.fst := by
  induction c with
  | nil => rfl
  | cons p rest ih =>
    obtain ⟨k, l⟩ := p
    unfold setColl
    split
    · simp
    · simp [ih]

theorem processItems_keys {spec : MonkeySpec} {dv : Bool} {factor : Int}
    (items : List Int) : ∀ {c c2 : Collections},
    processItems spec dv factor items c = .ok c2 →
    c2.map Prod.fst = c.map Prod.fst := by
  induction items with
  | nil =>
    intro c c2 h
    simp only [processItems, Except.ok.injEq] at h
    subst h
    rfl
  | cons x rest ih =>
    intro c c2 h
    unfold processItems at h
    cases ha : spec.operation.apply x with
    | none => simp [ha] at h
    | some y =>
      simp only [ha] at h
      cases hp : pushColl c (if spec.test.apply (if dv then y.tdiv 3 else y.tmod factor)
          then spec.preference.if_true else spec.preference.if_false)
          (if dv then y.tdiv 3 else y.tmod factor) with
      | none => simp [hp] at h
      | some c3 =>
        simp only [hp] at h
        rw [ih h, pushColl_keys hp]

theorem monkeyTurn_keys {dv : Bool} {factor : Int} {st st2 : SimState}
    {id : Int} {spec : MonkeySpec} (h : monkeyTurn dv factor st id spec = .ok st2) :
    st2.collections.map Prod.fst = st.collections.map Prod.fst := by
  unfold monkeyTurn at h
  cases hq : lookupColl st.collections id with
  | none => simp [hq] at h
  | some batch =>
    simp only [hq] at h
    cases hp : processItems spec dv factor batch (setColl st.collections id []) with
    | error e => simp [hp] at h
    | ok c2 =>
      simp only [hp, Except.ok.injEq] at h
      subst h
      rw [show (⟨c2, counterAdd st.counts id batch.length⟩ : SimState).collections = c2
        from rfl]
      rw [processItems_keys batch hp, setColl_keys]

theorem runSpecs_keys {dv : Bool} {factor : Int}
    (specs : List (Int × MonkeySpec)) : ∀ {st st2 : SimState},
    runSpecs dv factor specs st = .ok st2 →
    st2.collections.map Prod.fst = st.collections.map Prod.fst := by
  induction specs with
  | nil =>
    intro st st2 h
    simp only [runSpecs, Except.ok.injEq] at h
    subst h
    rfl
  | cons p rest ih =>
    intro st st2 h
    obtain ⟨id, spec⟩ := p
    unfold runSpecs at h
    cases hm : monkeyTurn dv factor st id spec with
    | error e => simp [hm] at h
    | ok st1 =>
      simp only [hm] at h
      rw [ih h, monkeyTurn_keys hm]

theorem sum_qlen_keys (c : Collections) : (c.map Prod.fst).Nodup →
    (((c.map Prod.fst).map fun k => qlen c k).sum) = totalItems c := by
  induction c with
  | nil => intro _; simp [totalItems]
  | cons p rest ih =>
    obtain ⟨k, l⟩ := p
    intro hnd
    simp only [List.map_cons, List.nodup_cons] at hnd
    rw [List.map_cons, List.map_cons, List.sum_cons]
    have h1 : qlen ((k, l) :: rest) k = l.length := by
      simp [qlen, lookupColl]
    have h2 : ((rest.map Prod.fst).map fun w => qlen ((k, l) :: rest) w)
        = ((rest.map Prod.fst).map fun w => qlen rest w) := by
      apply List.map_congr_left
      intro w hw
      have hne : k ≠ w := fun hc => hnd.1 (hc ▸ hw)
      simp [qlen, lookupColl, if_neg hne]
    rw [h1, h2, ih hnd.2, totalItems_cons]

theorem sum_qlen_perm (c : Collections) (keys : List Int)
    (hperm : keys.Perm (c.map Prod.fst)) (hnd : (c.map Prod.fst).Nodup) :
    ((keys.map fun k => qlen c k).sum) = totalItems c := by
  rw [(hperm.map fun k => qlen c k).sum_eq, sum_qlen_keys c hnd]

theorem runRounds_count_ge {dv : Bool} {factor : Int}
    {specs : List (Int × MonkeySpec)} (r : Nat) : ∀ {st st2 : SimState},
    (specs.map Prod.fst).Nodup →
    (specs.map Prod.fst).Perm (st.collections.map Prod.fst) →
    (st.collections.map Prod.fst).Nodup →
    runRounds specs dv factor r st = .ok st2 →
    totalCount st.counts + r * totalItems st.collections ≤ totalCount st2.counts := by
  induction r with
  | zero =>
    intro st st2 _ _ _ h
    simp only [runRounds, Except.ok.injEq] at h
    subst h
    simp
  | succ n ih =>
    intro st st2 hnd hperm hcnd h
    rw [runRounds_succ] at h
    cases hs : runSpecs dv factor specs st with
    | error e => simp [hs] at h
    | ok st1 =>
      simp only [hs] at h
      have hge := runSpecs_count_ge specs hnd hs
      have hsum : ((specs.map fun p => qlen st.collections p.1).sum)
          = totalItems st.collections := by
        have hq := sum_qlen_perm st.collections (specs.map Prod.fst) hperm hcnd
        rwa [List.map_map] at hq
      have hkeys := runSpecs_keys specs hs
      have hcons := runSpecs_conserve specs hs
      have hperm1 : (specs.map Prod.fst).Perm (st1.collections.map Prod.fst) := by
        rwa [hkeys]
      have hcnd1 : (st1.collections.map Prod.fst).Nodup := by
        rwa [hkeys]
      have hih := ih hnd hperm1 hcnd1 h
      rw [hcons] at hih
      have hmul : (n + 1) * totalItems st.collections
          = totalItems st.collections + n * totalItems st.collections := by ring
      omega

/-- C7 amended: the total number of items across all queues is conserved by
every completed run, and (for a simulation whose spec keys are distinct and
match the queue-map keys) the total number of inspections after `r` rounds is
at least `r` times the conserved item total -- the sum of the round-start
snapshots.  Equality does not hold in general: an item thrown to a
higher-numbered worker is inspected again in the same round. -/
theorem c7_conservation_and_count_bound :
    (∀ (specs : List (Int × MonkeySpec)) (dv : Bool) (factor : Int) (r : Nat)
        (st st2 : SimState), runRounds specs dv factor r st = .ok st2 →
        totalItems st2.collections = totalItems st.collections) ∧
    (∀ (specs : List (Int × MonkeySpec)) (dv : Bool) (factor : Int) (r : Nat)
        (st st2 : SimState), (specs.map Prod.fst).Nodup →
        (specs.map Prod.fst).Perm (st.collections.map Prod.fst) →
        (st.collections.map Prod.fst).Nodup →
        runRounds specs dv factor r st = .ok st2 →
        totalCount st.counts + r * totalItems st.collections
          ≤ totalCount st2.counts) :=
  ⟨fun _ _ _ r _ _ h => runRounds_conserve r h,
    fun _ _ _ r _ _ hnd hperm hcnd h => runRounds_count_ge r hnd hperm hcnd h⟩

/-- C7 counterexample: in the ping-pong instance with one item per worker,
one round produces 3 inspections while the round-start snapshot has 2 items,
so the claimed equality with the summed snapshots fails. -/
theorem c7_counterexample :
    runRounds (pingPongInput [0] [0]).specs false 1 1
        ⟨(pingPongInput [0] [0]).collections, []⟩
      = .ok ⟨[(0, [0, 0]), (1, [])], [(0, 1), (1, 2)]⟩ ∧
    totalCount [(0, 1), (1, 2)] = 3 ∧
    1 * totalItems (pingPongInput [0] [0]).collections = 2 ∧ (3 : Nat) ≠ 2 :=
  ⟨by rfl, by rfl, by rfl, by decide⟩

/-- Witness for C7 amended: one modulus-mode round of the example instance. -/
theorem c7_witness :
    totalCount (⟨exampleInput.collections, []⟩ : SimState).counts
        + 1 * totalItems (⟨exampleInput.collections, []⟩ : SimState).collections
      ≤ totalCount (slowOf ck0).counts :=
  c7_conservation_and_count_bound.2 exampleInput.specs false 96577 1
    ⟨exampleInput.collections, []⟩ (slowOf ck0) (by decide) (by decide) (by decide)
    (by rfl)
